import Mathlib

/-! Verification of the client-side derived-data layer of `canton_scan_client.py`.

The file shallow-embeds the functions of `ScanApiClient` that the claims
concern: `find_rounds_for_month` (month resolver with two binary searches),
`get_wallet_balances_for_rounds` (range series builder),
`get_wallet_balance_last_10_rounds`, `get_latest_wallet_balance`,
`export_all_round_party_totals_to_csv`, and `export_activities_after`
(two-pass streaming flatten exporter).  The Gateway (the HTTP service) is
modelled as a record of pure functions; all embedded code is executable.

Python `datetime.fromisoformat` is an external standard-library collaborator;
the embedding is parameterised by an abstract parse function
`parse : String → Option (Int × Int)` returning the `(year, month)` of the
parsed timestamp (the only projection the source reads), with a small concrete
instance `parseYM` used to instantiate theorems on concrete inputs.
-/

namespace CantonScan

/-! Section: Python-semantics helpers -/

/-- Python `a or b` restricted to optional strings: `None` and `""` are falsy,
so a falsy first operand yields the second operand (Python returns the last
operand when all are falsy). -/
def pyOr (a b : Option String) : Option String :=
  match a with
  | some s => if s = "" then b else some s
  | none => b

/-- Python truthiness of an optional string: `None` and `""` are falsy. -/
def truthyS : Option String → Bool
  | some s => s != ""
  | none => false

/-- Replace every `'Z'` by `"+00:00"` in a character list; implements the
source's `effective_at.replace("Z", "+00:00")` (the pattern is the single
character `"Z"`). -/
def replaceZChars : List Char → List Char
  | [] => []
  | c :: rest =>
    if c = 'Z' then '+' :: '0' :: '0' :: ':' :: '0' :: '0' :: replaceZChars rest
    else c :: replaceZChars rest

/-- Python `s.replace("Z", "+00:00")`. -/
def pyReplaceZ (s : String) : String := String.mk (replaceZChars s.data)

/-- Lexicographic order on character lists by code point, as Python compares
strings. -/
def lexLtChars : List Char → List Char → Bool
  | [], [] => false
  | [], _ :: _ => true
  | _ :: _, [] => false
  | a :: as, b :: bs => if a < b then true else if b < a then false else lexLtChars as bs

/-- Python `a < b` on strings (code-point lexicographic). -/
def strLt (a b : String) : Bool := lexLtChars a.data b.data

/-- Python `a <= b` on strings. -/
def strLe (a b : String) : Bool := !(strLt b a)

/-- Python `range(start, stop, step)` for a positive `step`, by structural
recursion on a fuel that bounds the number of elements (`stop - start` bounds
it whenever `step ≥ 1`).  For `step ≤ 0` the source call sites never run
(all claims fix `step ≥ 1`); the embedding returns `[]` there. -/
def rangeUpAux (step : Int) : Nat → Int → Int → List Int
  | 0, _, _ => []
  | n + 1, start, stop =>
    if 0 < step ∧ start < stop then start :: rangeUpAux step n (start + step) stop else []

/-- Python `range(start, stop, step)` (ascending, `step ≥ 1`). -/
def rangeUp (start stop step : Int) : List Int :=
  rangeUpAux step (stop - start).toNat start stop

/-- Maximum of a list of naturals, starting from an initial accumulator
(`foldl max`), as the source's running `max_receivers` update computes. -/
def listMaxFrom (m : Nat) (xs : List Nat) : Nat := xs.foldl max m

/-- Maximum of a list of naturals (0 for the empty list). -/
def listMax (xs : List Nat) : Nat := listMaxFrom 0 xs

/-- Integer-keyed dictionary assignment `d[k] = v` preserving insertion order
(update in place when the key exists, append otherwise), as Python dicts do. -/
def dictSetI : List (Int × String) → Int → String → List (Int × String)
  | [], k, v => [(k, v)]
  | (k', v') :: rest, k, v =>
    if k' = k then (k, v) :: rest else (k', v') :: dictSetI rest k v

/-- Integer-keyed dictionary lookup `d.get(k)`. -/
def lookupI : List (Int × String) → Int → Option String
  | [], _ => none
  | (k', v) :: rest, k => if k' = k then some v else lookupI rest k

/-! Section: Gateway data model (rounds side) -/

/-- Value of one cell of a round-party-totals entry (the entry dicts are
heterogeneous JSON objects; the export logic distinguishes `None`, strings
and integers). -/
inductive CellVal where
  | vnone
  | vstr (s : String)
  | vint (n : Int)
deriving DecidableEq

/-- One round-party-totals entry: an insertion-ordered string-keyed dict. -/
abbrev PartyEntry := List (String × CellVal)

/-- One entry of a `round_totals` response.  The source reads exactly these
four keys of each entry; `closed_round` may be absent and each timestamp
synonym may be absent (`none`) or present (possibly the empty string). -/
structure RoundTotalEntry where
  closed_round : Option Int
  closed_round_effective_at : Option String
  effectiveAt : Option String
  effective_at : Option String

/-- The Gateway collaborator, as a record of pure response functions:
`latest`/`latestEffectiveAt` model the `round` and `effectiveAt` fields of
`get_round_of_latest_data()`, `round_totals` models
`list_round_totals(start, end)` (already projected to its `entries` list),
`wallet_balance` models `get_wallet_balance(party, round).get("wallet_balance")`,
and `round_party_totals` models
`list_round_party_totals(start, end).get("entries", [])` with each entry an
insertion-ordered string-keyed dict. -/
structure Gw where
  latest : Option Int
  latestEffectiveAt : Option String
  round_totals : Int → Int → List RoundTotalEntry
  wallet_balance : String → Int → Option String
  round_party_totals : Int → Int → List PartyEntry

/-! Section: Effective-timestamp synonym chains

Each source function inlines the chain
`entry.get("closed_round_effective_at") or entry.get("effectiveAt") or
entry.get("effective_at")`; the embedding keeps one definition per call
site, mirroring the source, so that their agreement is a theorem. -/

/-- Synonym chain as written inside `find_rounds_for_month.get_effective_at`. -/
def resolverEffAt (e : RoundTotalEntry) : Option String :=
  pyOr e.closed_round_effective_at (pyOr e.effectiveAt e.effective_at)

/-- Synonym chain as written inside `get_wallet_balances_for_rounds`. -/
def rangeSeriesEffAt (e : RoundTotalEntry) : Option String :=
  pyOr e.closed_round_effective_at (pyOr e.effectiveAt e.effective_at)

/-- Synonym chain as written inside `get_wallet_balance_last_10_rounds`. -/
def last10EffAt (e : RoundTotalEntry) : Option String :=
  pyOr e.closed_round_effective_at (pyOr e.effectiveAt e.effective_at)

/-- Synonym chain as written inside `export_all_round_party_totals_to_csv`. -/
def partyTotalsEffAt (e : RoundTotalEntry) : Option String :=
  pyOr e.closed_round_effective_at (pyOr e.effectiveAt e.effective_at)

/-! Section: find_rounds_for_month -/

/-- Scan of a `round_totals` response inside `get_effective_at`: the first
entry whose `closed_round` equals the requested round and whose synonym chain
is truthy yields that chain value. -/
def findEff (roundNum : Int) : List RoundTotalEntry → Option String
  | [] => none
  | e :: rest =>
    let eff := resolverEffAt e
    if e.closed_round = some roundNum ∧ truthyS eff then eff
    else findEff roundNum rest

/-- The 200-round window fetched for a probe:
`batch_start = (round // 200) * 200`,
`batch_end = min(batch_start + 200 - 1, latest_round)`. -/
def roundWindow (latestRound roundNum : Int) : Int × Int :=
  ((roundNum / 200) * 200, min ((roundNum / 200) * 200 + 200 - 1) latestRound)

/-- Helper `get_effective_at(round_num)` of `find_rounds_for_month`: fetch the
aligned window from the Gateway and scan it. -/
def getEffectiveAt (gw : Gw) (latestRound roundNum : Int) : Option String :=
  findEff roundNum (gw.round_totals (roundWindow latestRound roundNum).1
                                    (roundWindow latestRound roundNum).2)

/-- Helper `get_effective_at_dt(round_num)`: parse the truthy timestamp after the
`"Z" → "+00:00"` replacement, yielding its `(year, month)`; parse failure
(the `except` branch) and a falsy timestamp both give `none`. -/
def getEffectiveAtDt (gw : Gw) (parse : String → Option (Int × Int))
    (latestRound roundNum : Int) : Option (Int × Int) :=
  match getEffectiveAt gw latestRound roundNum with
  | some s => if s = "" then none else parse (pyReplaceZ s)
  | none => none

/-- Python tuple order `(y1, m1) < (y2, m2)`. -/
def ymLt (p q : Int × Int) : Prop := p.1 < q.1 ∨ (p.1 = q.1 ∧ p.2 < q.2)

instance instDecidableYmLt (p q : Int × Int) : Decidable (ymLt p q) := by
  unfold ymLt; exact inferInstance

/-- Python tuple order `(y1, m1) <= (y2, m2)`. -/
def ymLe (p q : Int × Int) : Prop := p.1 < q.1 ∨ (p.1 = q.1 ∧ p.2 ≤ q.2)

instance instDecidableYmLe (p q : Int × Int) : Decidable (ymLe p q) := by
  unfold ymLe; exact inferInstance

/-- First binary search of `find_rounds_for_month` (first round of the month),
by structural recursion on a fuel bounding the iteration count; `w` names the
window each probe fetches and the second component logs, in order, the windows
of the `round_totals` calls the loop issues. -/
def searchFirstAux (f : Int → Option (Int × Int)) (w : Int → Int × Int) (tgt : Int × Int) :
    Nat → Int → Int → Option Int → List (Int × Int) → Option Int × List (Int × Int)
  | 0, _, _, acc, log => (acc, log)
  | fuel + 1, left, right, acc, log =>
    if left ≤ right then
      let mid := (left + right) / 2
      let log2 := log ++ [w mid]
      match f mid with
      | none => searchFirstAux f w tgt fuel (mid + 1) right acc log2
      | some p =>
        if ymLt p tgt then searchFirstAux f w tgt fuel (mid + 1) right acc log2
        else if ymLt tgt p then searchFirstAux f w tgt fuel left (mid - 1) acc log2
        else searchFirstAux f w tgt fuel left (mid - 1) (some mid) log2
    else (acc, log)

/-- First binary search with its exact fuel (`right + 1 - left` bounds the
number of iterations, since each iteration shrinks the interval). -/
def searchFirstLog (f : Int → Option (Int × Int)) (w : Int → Int × Int) (tgt : Int × Int)
    (left right : Int) (acc : Option Int) (log : List (Int × Int)) :
    Option Int × List (Int × Int) :=
  searchFirstAux f w tgt (right + 1 - left).toNat left right acc log

/-- Second binary search of `find_rounds_for_month` (last round of the month),
seeded with the first-round result as its running answer. -/
def searchLastAux (f : Int → Option (Int × Int)) (w : Int → Int × Int) (tgt : Int × Int) :
    Nat → Int → Int → Int → List (Int × Int) → Int × List (Int × Int)
  | 0, _, _, acc, log => (acc, log)
  | fuel + 1, left, right, acc, log =>
    if left ≤ right then
      let mid := (left + right) / 2
      let log2 := log ++ [w mid]
      match f mid with
      | none => searchLastAux f w tgt fuel (mid + 1) right acc log2
      | some p =>
        if ymLt tgt p then searchLastAux f w tgt fuel left (mid - 1) acc log2
        else if ymLt p tgt then searchLastAux f w tgt fuel (mid + 1) right acc log2
        else searchLastAux f w tgt fuel (mid + 1) right mid log2
    else (acc, log)

/-- Second binary search with its exact fuel. -/
def searchLastLog (f : Int → Option (Int × Int)) (w : Int → Int × Int) (tgt : Int × Int)
    (left right : Int) (acc : Int) (log : List (Int × Int)) : Int × List (Int × Int) :=
  searchLastAux f w tgt (right + 1 - left).toNat left right acc log

/-- Result type of `find_rounds_for_month` (the `FindRoundsForMonthResult`
TypedDict of the source). -/
structure FindRoundsForMonthResult where
  start_round : Int
  start_time : Option String
  end_round : Int
  end_time : Option String
deriving DecidableEq

/-- Embedding of `find_rounds_for_month(year, month)` together with the ordered log of the
`(batch_start, batch_end)` arguments of every `round_totals` Gateway call it
issues (the two searches probe, then the two final `get_effective_at` calls
re-fetch the windows of the found rounds). -/
def findRoundsForMonthFull (gw : Gw) (parse : String → Option (Int × Int))
    (year month : Int) : Option FindRoundsForMonthResult × List (Int × Int) :=
  match gw.latest with
  | none => (none, [])
  | some latestRound =>
    let f := getEffectiveAtDt gw parse latestRound
    let w := roundWindow latestRound
    let s1 := searchFirstLog f w (year, month) 0 latestRound none []
    match s1.1 with
    | none => (none, s1.2)
    | some firstInMonth =>
      let s2 := searchLastLog f w (year, month) firstInMonth latestRound firstInMonth s1.2
      (some { start_round := firstInMonth
              start_time := getEffectiveAt gw latestRound firstInMonth
              end_round := s2.1
              end_time := getEffectiveAt gw latestRound s2.1 },
       s2.2 ++ [w firstInMonth, w s2.1])

/-- Embedding of `find_rounds_for_month(year, month)`: the returned value. -/
def findRoundsForMonth (gw : Gw) (parse : String → Option (Int × Int))
    (year month : Int) : Option FindRoundsForMonthResult :=
  (findRoundsForMonthFull gw parse year month).1

/-- Windows of the `round_totals` Gateway calls one `find_rounds_for_month`
call issues, in order. -/
def findRoundsCallLog (gw : Gw) (parse : String → Option (Int × Int))
    (year month : Int) : List (Int × Int) :=
  (findRoundsForMonthFull gw parse year month).2

/-! Section: get_latest_wallet_balance -/

/-- Result of `get_latest_wallet_balance` (the `LatestWalletBalanceResponse`
TypedDict of the source). -/
structure LatestWalletBalanceResult where
  round : Int
  effective_at : Option String
  wallet_balance : Option String
  party_id : String
deriving DecidableEq

/-- Embedding of `get_latest_wallet_balance(party_id)`: when the latest-round query yields
no round number the source raises `ValueError("Could not determine latest
round")`, modelled as the `Except.error` branch; otherwise it queries the
balance at the latest round. -/
def getLatestWalletBalance (gw : Gw) (partyId : String) :
    Except String LatestWalletBalanceResult :=
  match gw.latest with
  | none => .error "Could not determine latest round"
  | some latestRound =>
    .ok { round := latestRound
          effective_at := gw.latestEffectiveAt
          wallet_balance := gw.wallet_balance partyId latestRound
          party_id := partyId }

/-! Section: get_wallet_balances_for_rounds (range series builder) -/

/-- One row of the range series (`round`, `effective_time`, `wallet_balance`
keys of the source's result dicts). -/
structure BalanceSampleRow where
  round : Int
  effective_time : Option String
  wallet_balance : Option String
deriving DecidableEq

/-- Timestamp pre-population loop of `get_wallet_balances_for_rounds`: walk
the range in 200-round batches (`batch_end = min(batch_start + 200 - 1,
last_round)`) and record every entry with a non-`None` `closed_round` and a
truthy synonym chain into the lookup dictionary. -/
def prefetchEffTimes (gw : Gw) (firstRound lastRound : Int) : List (Int × String) :=
  (rangeUp firstRound (lastRound + 1) 200).foldl
    (fun dict batchStart =>
      let batchEnd := min (batchStart + 200 - 1) lastRound
      (gw.round_totals batchStart batchEnd).foldl
        (fun dict e =>
          match e.closed_round with
          | some rn =>
            match rangeSeriesEffAt e with
            | some s => if s = "" then dict else dictSetI dict rn s
            | none => dict
          | none => dict)
        dict)
    []

/-- Embedding of `get_wallet_balances_for_rounds(party_id, first_round, last_round, step)`:
pre-populate the timestamp lookup, then one `BalanceSample` per round of
`range(first_round, last_round + 1, step)`. -/
def getWalletBalancesForRounds (gw : Gw) (partyId : String)
    (firstRound lastRound step : Int) : List BalanceSampleRow :=
  let roundToEffTime := prefetchEffTimes gw firstRound lastRound
  (rangeUp firstRound (lastRound + 1) step).map
    (fun r =>
      { round := r
        effective_time := lookupI roundToEffTime r
        wallet_balance := gw.wallet_balance partyId r })

/-! Section: get_wallet_balance_last_10_rounds -/

/-- Embedding of `get_wallet_balance_last_10_rounds(party_id)`: a missing latest round is
reported and an empty list returned; otherwise the rounds
`max(0, latest - 9) .. latest` are sampled after one un-batched
`round_totals` prefetch. -/
def getWalletBalanceLast10Rounds (gw : Gw) (partyId : String) : List BalanceSampleRow :=
  match gw.latest with
  | none => []
  | some latestRound =>
    let startRound := max 0 (latestRound - 9)
    let roundToEffTime :=
      (gw.round_totals startRound latestRound).foldl
        (fun dict e =>
          match e.closed_round with
          | some rn =>
            match last10EffAt e with
            | some s => if s = "" then dict else dictSetI dict rn s
            | none => dict
          | none => dict)
        []
    (rangeUp startRound (latestRound + 1) 1).map
      (fun r =>
        { round := r
          effective_time := lookupI roundToEffTime r
          wallet_balance := gw.wallet_balance partyId r })

/-! Section: export_all_round_party_totals_to_csv -/

/-- String-keyed dictionary assignment preserving insertion order (update in
place when the key exists, append otherwise), as Python dicts do. -/
def dictSetS : PartyEntry → String → CellVal → PartyEntry
  | [], k, v => [(k, v)]
  | (k', v') :: rest, k, v =>
    if k' = k then (k, v) :: rest else (k', v') :: dictSetS rest k v

/-- Assignment `entry["effective_time"] = round_to_effective_time.get(round_num)` for one
export entry: a non-integer `closed_round` value (including a missing key,
where `.get` yields `None`) misses the integer-keyed dictionary. -/
def annotateEntry (roundToEffTime : List (Int × String)) (e : PartyEntry) : PartyEntry :=
  let et :=
    match e.lookup "closed_round" with
    | some (.vint rn) =>
      match lookupI roundToEffTime rn with
      | some s => CellVal.vstr s
      | none => CellVal.vnone
    | _ => CellVal.vnone
  dictSetS e "effective_time" et

/-- Fieldnames of the export header: the keys of the first entry of the first
non-empty batch, with `"effective_time"` appended when absent. -/
def partyTotalsHeader (entries : List PartyEntry) : List String :=
  match entries with
  | [] => []
  | e :: _ =>
    let ks := e.map Prod.fst
    if "effective_time" ∈ ks then ks else ks ++ ["effective_time"]

/-- Embedding of `export_all_round_party_totals_to_csv(csv_path, start_round, batch_size)`:
when the latest-round query yields no round number the source prints a message
and returns before opening the output file (modelled `none`: no file is
created); otherwise it walks `range(start_round, latest_round + 1,
batch_size)`, skips empty batches, and writes the header on the first
non-empty batch followed by the annotated entries. -/
def exportAllRoundPartyTotalsToCsv (gw : Gw) (startRound batchSize : Int) :
    Option (Option (List String) × List PartyEntry) :=
  match gw.latest with
  | none => none
  | some latestRound =>
    some ((rangeUp startRound (latestRound + 1) batchSize).foldl
      (fun acc batchStart =>
        let batchEnd := min (batchStart + batchSize - 1) latestRound
        let entries := gw.round_party_totals batchStart batchEnd
        if entries.isEmpty then acc
        else
          let roundToEffTime :=
            (gw.round_totals batchStart batchEnd).foldl
              (fun dict e =>
                match e.closed_round with
                | some rn =>
                  match partyTotalsEffAt e with
                  | some s => if s = "" then dict else dictSetI dict rn s
                  | none => dict
                | none => dict)
              []
          let annotated := entries.map (annotateEntry roundToEffTime)
          let header :=
            match acc.1 with
            | some h => some h
            | none => some (partyTotalsHeader annotated)
          (header, acc.2 ++ annotated))
      ((none : Option (List String)), ([] : List PartyEntry)))

/-! Section: export_activities_after (streaming flatten exporter)

Activity records are arbitrary JSON-shaped dicts; they are modelled by a
small Python-value type.  Operations that would raise `TypeError` /
`AttributeError` in Python (comparing a truthy non-string `date` with the
cutoff string, `.get` on a truthy non-dict `transfer`, `len` of a
non-sized value) are marked below and are outside the modelled behaviours;
every theorem about the exporter only exercises feeds on which Python does
not raise. -/

/-- A Python/JSON value as the exporter manipulates it. -/
inductive PyObj where
  | pnone
  | pstr (s : String)
  | pint (n : Int)
  | plist (xs : List PyObj)
  | pdict (kvs : List (String × PyObj))

/-- One activity record: an insertion-ordered string-keyed dict. -/
abbrev Activity := List (String × PyObj)

/-- Python truthiness of a value: `None`, `""`, `0`, `[]` and the empty dict
are falsy. -/
def truthyB : PyObj → Bool
  | .pnone => false
  | .pstr s => s != ""
  | .pint n => n != 0
  | .plist xs => !xs.isEmpty
  | .pdict kvs => !kvs.isEmpty

/-- Python `d.get(k)` on a string-keyed dict (`None` when absent). -/
def dictGet (d : Activity) (k : String) : PyObj := (d.lookup k).getD .pnone

/-- String-keyed dictionary assignment `d[k] = v` preserving insertion order,
as Python dicts do. -/
def dictSet : Activity → String → PyObj → Activity
  | [], k, v => [(k, v)]
  | (k', v') :: rest, k, v =>
    if k' = k then (k, v) :: rest else (k', v') :: dictSet rest k v

/-- Python `v < cutoff` for the date comparison: defined for string values;
a truthy non-string date would raise `TypeError` in Python (not modelled,
and guarded by a truthiness test at both call sites). -/
def pyLtS (v : PyObj) (cutoff : String) : Bool :=
  match v with
  | .pstr s => strLt s cutoff
  | _ => false

/-- Python `len(v)`: lists, dicts and strings are sized; `len` of any other
value raises in Python (not modelled, never reached in the claims' feeds). -/
def pyLen : PyObj → Nat
  | .plist xs => xs.length
  | .pdict kvs => kvs.length
  | .pstr s => s.length
  | _ => 0

/-- Python `transfer.get(k, [])`: `.get` on a non-dict raises
`AttributeError` in Python (not modelled; this branch also returns `[]`). -/
def transferGetList (t : PyObj) (k : String) : PyObj :=
  match t with
  | .pdict kvs => (kvs.lookup k).getD (.plist [])
  | _ => .plist []

/-- Stop condition of both passes:
`activity_date and activity_date < after_timestamp`. -/
def stopsAtB (a : Activity) (cutoff : String) : Bool :=
  let d := dictGet a "date"
  truthyB d && pyLtS d cutoff

/-- Length of a record's `transfer.receivers` list as the discovery pass
measures it (`0` when the record has no truthy `transfer`). -/
def recvLenOf (a : Activity) : Nat :=
  pyLen (transferGetList (dictGet a "transfer") "receivers")

/-- Length of a record's `transfer.balance_changes` list as the discovery
pass measures it. -/
def bcLenOf (a : Activity) : Nat :=
  pyLen (transferGetList (dictGet a "transfer") "balance_changes")

/-- Python `json.dumps` on a modelled value (default separators; string
escaping elided — no theorem inspects the encoded text). -/
def pyJson : PyObj → String
  | .pnone => "null"
  | .pstr s => "\"" ++ s ++ "\""
  | .pint n => toString n
  | .plist xs => "[" ++ String.intercalate ", " (xs.attach.map (fun x => pyJson x.1)) ++ "]"
  | .pdict kvs =>
    "\x7b" ++
      String.intercalate ", "
        (kvs.attach.map (fun kv => "\"" ++ kv.1.1 ++ "\": " ++ pyJson kv.1.2)) ++
      "\x7d"
decreasing_by
  · simp_wf
    have h := List.sizeOf_lt_of_mem x.2
    omega
  · simp_wf
    obtain ⟨⟨k, v⟩, hm⟩ := kv
    have h := List.sizeOf_lt_of_mem hm
    simp only [Prod.mk.sizeOf_spec] at h
    simp only
    omega

/-- Expansion of index `i` of a `receivers` list into `transfer_receivers_{i}_*`
columns: a dict element contributes its own fields, any other (or missing)
element contributes `None` for the three known sub-fields. -/
def flattenReceiverAt (xs : List PyObj) (i : Nat) (items : Activity) : Activity :=
  match xs.get? i with
  | some (.pdict kvs) =>
    kvs.foldl
      (fun it kv => dictSet it ("transfer_receivers_" ++ toString i ++ "_" ++ kv.1) kv.2)
      items
  | _ =>
    ["party", "amount", "receiver_fee"].foldl
      (fun it rk => dictSet it ("transfer_receivers_" ++ toString i ++ "_" ++ rk) .pnone)
      items

/-- Expansion of index `i` of a `balance_changes` list into
`transfer_balance_changes_{i}_*` columns. -/
def flattenBalanceChangeAt (xs : List PyObj) (i : Nat) (items : Activity) : Activity :=
  match xs.get? i with
  | some (.pdict kvs) =>
    kvs.foldl
      (fun it kv =>
        dictSet it ("transfer_balance_changes_" ++ toString i ++ "_" ++ kv.1) kv.2)
      items
  | _ =>
    ["party", "change_to_initial_amount_as_of_round_zero", "change_to_holding_fees_rate"].foldl
      (fun it bk => dictSet it ("transfer_balance_changes_" ++ toString i ++ "_" ++ bk) .pnone)
      items

/-- Flattening of one `(tk, tv)` item of a `transfer` sub-dict: `receivers`
and `balance_changes` lists are expanded to indexed columns up to the two
discovered maxima plus a JSON-encoded verbatim copy; any other dict value is
flattened one level as `transfer_{tk}_{sk}`; any other value passes through
as `transfer_{tk}`. -/
def flattenTransferKV (maxR maxB : Nat) (items : Activity) (tk : String) (tv : PyObj) :
    Activity :=
  if tk = "receivers" then
    match tv with
    | .plist xs =>
      dictSet ((List.range maxR).foldl (fun it i => flattenReceiverAt xs i it) items)
        "transfer_receivers" (.pstr (pyJson tv))
    | .pdict kvs =>
      kvs.foldl (fun it kv => dictSet it ("transfer_" ++ tk ++ "_" ++ kv.1) kv.2) items
    | _ => dictSet items ("transfer_" ++ tk) tv
  else if tk = "balance_changes" then
    match tv with
    | .plist xs =>
      dictSet ((List.range maxB).foldl (fun it i => flattenBalanceChangeAt xs i it) items)
        "transfer_balance_changes" (.pstr (pyJson tv))
    | .pdict kvs =>
      kvs.foldl (fun it kv => dictSet it ("transfer_" ++ tk ++ "_" ++ kv.1) kv.2) items
    | _ => dictSet items ("transfer_" ++ tk) tv
  else
    match tv with
    | .pdict kvs =>
      kvs.foldl (fun it kv => dictSet it ("transfer_" ++ tk ++ "_" ++ kv.1) kv.2) items
    | _ => dictSet items ("transfer_" ++ tk) tv

/-- The exporter's `flatten(d, max_receivers, max_balance_changes)`: the
`transfer` sub-dict is flattened by `flattenTransferKV`; any other dict value
is flattened one level as `{k}_{sk}`; any other list value is JSON-encoded
whole; scalars pass through. -/
def flatten (d : Activity) (maxR maxB : Nat) : Activity :=
  d.foldl
    (fun items kv =>
      let k := kv.1
      let v := kv.2
      if k = "transfer" then
        match v with
        | .pdict tvs => tvs.foldl (fun it tkv => flattenTransferKV maxR maxB it tkv.1 tkv.2) items
        | .plist _ => dictSet items k (.pstr (pyJson v))
        | _ => dictSet items k v
      else
        match v with
        | .pdict kvs => kvs.foldl (fun it skv => dictSet it (k ++ "_" ++ skv.1) skv.2) items
        | .plist _ => dictSet items k (.pstr (pyJson v))
        | _ => dictSet items k v)
    []

/-- State of the discovery pass.  The fields are the loop-carried locals of
the source; `inspected` is a ghost counter of how many records the per-batch
loop body has examined (used to state the "record never examined" part of the
scenario claims). -/
@[ext]
structure Pass1St where
  begin_after_id : PyObj
  total_scanned : Nat
  max_receivers : Nat
  max_balance_changes : Nat
  all_flattened : List Activity
  inspected : Nat

/-- Initial discovery-pass state (`begin_after_id = ""`, zero counters). -/
def initSt : Pass1St :=
  { begin_after_id := .pstr ""
    total_scanned := 0
    max_receivers := 0
    max_balance_changes := 0
    all_flattened := []
    inspected := 0 }

/-- Per-record body of the discovery loop after the stop test: update the two
maxima when the record has a truthy `transfer`, buffer the record, bump the
counters. -/
def absorbActivity (st : Pass1St) (a : Activity) : Pass1St :=
  let tr := dictGet a "transfer"
  let st1 :=
    if truthyB tr then
      { st with
          max_receivers := max st.max_receivers (pyLen (transferGetList tr "receivers"))
          max_balance_changes :=
            max st.max_balance_changes (pyLen (transferGetList tr "balance_changes")) }
    else st
  { st1 with
      all_flattened := st1.all_flattened ++ [a]
      total_scanned := st1.total_scanned + 1
      inspected := st1.inspected + 1 }

/-- Per-batch loop of the discovery pass: examine records in order, breaking
out (second component `true`) at the first record whose truthy `date`
compares below the cutoff; that record is not buffered. -/
def scanBatch (cutoff : String) (st : Pass1St) : List Activity → Pass1St × Bool
  | [] => (st, false)
  | a :: rest =>
    if stopsAtB a cutoff then ({ st with inspected := st.inspected + 1 }, true)
    else scanBatch cutoff (absorbActivity st a) rest

/-- The activity feed of the Gateway: `list_activity({"page_size": n,
"begin_after_id": cursor}).get("activities", [])`. -/
structure ActivityGw where
  list_activity : Int → PyObj → List Activity

/-- Batch loop of the discovery pass (`while True` over cursor-paginated
pages), by structural recursion on a fuel bound on the number of pages;
`none` means the fuel was exhausted before the loop broke. -/
def pass1Loop (gw : ActivityGw) (cutoff : String) (pageSize : Int) :
    Nat → Pass1St → Option Pass1St
  | 0, _ => none
  | fuel + 1, st =>
    let acts := gw.list_activity pageSize st.begin_after_id
    if acts.isEmpty then some st
    else
      let sb := scanBatch cutoff st acts
      if sb.2 then some sb.1
      else
        let bid :=
          match acts.getLast? with
          | some a => dictGet a "event_id"
          | none => .pnone
        let lastDate :=
          match acts.getLast? with
          | some a => dictGet a "date"
          | none => .pnone
        let st' := { sb.1 with begin_after_id := bid }
        if !truthyB bid || (!acts.isEmpty && truthyB lastDate && pyLtS lastDate cutoff) then
          some st'
        else pass1Loop gw cutoff pageSize fuel st'

/-- Write loop of pass 2: flatten each buffered record in order, re-applying
the cutoff stop condition as a safety net. -/
def pass2Rows (cutoff : String) (maxR maxB : Nat) : List Activity → List Activity
  | [] => []
  | a :: rest =>
    if stopsAtB a cutoff then []
    else flatten a maxR maxB :: pass2Rows cutoff maxR maxB rest

/-- Stable insertion of a string into an ascending list. -/
def insertSorted (s : String) : List String → List String
  | [] => [s]
  | t :: rest => if strLe s t then s :: t :: rest else t :: insertSorted s rest

/-- Python `sorted` on strings (ascending code-point order). -/
def sortStrings (xs : List String) : List String := xs.foldr insertSorted []

/-- Python `set` insertion order-insensitively modelled as first-occurrence
deduplication (the result is sorted immediately after). -/
def dedupStr (xs : List String) : List String :=
  xs.foldl (fun acc s => if s ∈ acc then acc else acc ++ [s]) []

/-- Helper `get_all_fieldnames()`: the sorted union of the keys of every buffered
record's flattening. -/
def allFieldnames (buf : List Activity) (maxR maxB : Nat) : List String :=
  sortStrings (dedupStr (buf.foldl (fun acc a => acc ++ (flatten a maxR maxB).map Prod.fst) []))

/-- The written CSV file: header line and one flattened row per record. -/
structure CsvOut where
  header : List String
  rows : List Activity

/-- Embedding of `export_activities_after(after_timestamp, csv_path, page_size)`: discovery
pass, then header computation, then the write pass.  `none` only when the
page-loop fuel runs out. -/
def exportActivitiesAfter (gw : ActivityGw) (cutoff : String) (pageSize : Int)
    (fuel : Nat) : Option CsvOut :=
  match pass1Loop gw cutoff pageSize fuel initSt with
  | none => none
  | some st =>
    some { header := allFieldnames st.all_flattened st.max_receivers st.max_balance_changes
           rows := pass2Rows cutoff st.max_receivers st.max_balance_changes st.all_flattened }

/-- Gateway serving a fixed feed as one page: the whole list at the initial
empty cursor, the empty page at any other cursor. -/
def gwOfList (L : List Activity) : ActivityGw :=
  ⟨fun _ cursor =>
    match cursor with
    | .pstr s => if s = "" then L else []
    | _ => []⟩

/-! Section: Concrete timestamp parser instance -/

/-- Value of a decimal digit character. -/
def digitVal (c : Char) : Option Nat := if c.isDigit then some (c.toNat - 48) else none

/-- Concrete `(year, month)` parser for `YYYY-MM...` strings: a stand-in for
the external `datetime.fromisoformat` collaborator projected to the only two
fields the source reads (`dt.year`, `dt.month`); used solely to instantiate
theorems at concrete inputs. -/
def parseYM (s : String) : Option (Int × Int) :=
  match s.data with
  | a :: b :: c :: d :: '-' :: e :: f :: _ =>
    match digitVal a, digitVal b, digitVal c, digitVal d, digitVal e, digitVal f with
    | some a', some b', some c', some d', some e', some f' =>
      some (((a' * 1000 + b' * 100 + c' * 10 + d' : Nat) : Int),
            ((e' * 10 + f' : Nat) : Int))
    | _, _, _, _, _, _ => none
  | _ => none

/-! Section: Spec-side reference definitions (for refinement comparisons) -/

/-- Reference definition following the claim's words "taking the first
*present* one" of the three synonym fields: the first field that is not
`None`, regardless of emptiness.  Compared against the source's chain. -/
def specFirstPresent (e : RoundTotalEntry) : Option String :=
  match e.closed_round_effective_at with
  | some s => some s
  | none =>
    match e.effectiveAt with
    | some s => some s
    | none => e.effective_at

/-- Reference definition of the amended reading: the first synonym field that
is present *and* non-empty (truthy), in the fixed priority order; `none` when
no field qualifies. -/
def specFirstTruthy (e : RoundTotalEntry) : Option String :=
  if truthyS e.closed_round_effective_at then e.closed_round_effective_at
  else if truthyS e.effectiveAt then e.effectiveAt
  else if truthyS e.effective_at then e.effective_at
  else none

/-- Reference predicate following the claim's words "records whose date is
strictly newer than the cutoff timestamp". -/
def strictlyNewerB (cutoff : String) (a : Activity) : Bool :=
  match dictGet a "date" with
  | .pstr s => strLt cutoff s
  | _ => false

/-! Section: Concrete instances for witnesses and counterexamples -/

/-- Gateway with `latest = 1` and both rounds resolvable inside April 2024. -/
def gwAprilPair : Gw :=
  { latest := some 1
    latestEffectiveAt := some "2024-04-20T00:00:00Z"
    round_totals := fun _ _ =>
      [ { closed_round := some 0, closed_round_effective_at := some "2024-04-01T00:00:00Z",
          effectiveAt := none, effective_at := none },
        { closed_round := some 1, closed_round_effective_at := some "2024-04-20T00:00:00Z",
          effectiveAt := none, effective_at := none } ]
    wallet_balance := fun _ _ => some "1.0"
    round_party_totals := fun _ _ => [] }

/-- Gateway with `latest = 2`: round 0 closed in April 2024 (the target),
round 1 unresolved (absent from the window response), round 2 closed in
May 2024.  Timestamps of the resolvable rounds are non-decreasing. -/
def gwAprilGap : Gw :=
  { latest := some 2
    latestEffectiveAt := none
    round_totals := fun _ _ =>
      [ { closed_round := some 0, closed_round_effective_at := some "2024-04-15T00:00:00Z",
          effectiveAt := none, effective_at := none },
        { closed_round := some 2, closed_round_effective_at := some "2024-05-01T00:00:00Z",
          effectiveAt := none, effective_at := none } ]
    wallet_balance := fun _ _ => none
    round_party_totals := fun _ _ => [] }

/-- Gateway with a single round (latest = 0) resolvable in April 2024. -/
def gwSingleApril : Gw :=
  { latest := some 0
    latestEffectiveAt := none
    round_totals := fun _ _ =>
      [ { closed_round := some 0, closed_round_effective_at := some "2024-04-01T00:00:00Z",
          effectiveAt := none, effective_at := none } ]
    wallet_balance := fun _ _ => none
    round_party_totals := fun _ _ => [] }

/-- Gateway whose latest-round query yields no round number. -/
def gwNoLatest : Gw :=
  { latest := none
    latestEffectiveAt := none
    round_totals := fun _ _ => []
    wallet_balance := fun _ _ => none
    round_party_totals := fun _ _ => [] }

/-- Gateway reporting balance "100.0" at round 50 and "150.0" at round 60
(the range-series scenario). -/
def gwStepBalances : Gw :=
  { latest := some 60
    latestEffectiveAt := none
    round_totals := fun _ _ => []
    wallet_balance := fun _ r =>
      if r = 50 then some "100.0" else if r = 60 then some "150.0" else none
    round_party_totals := fun _ _ => [] }

/-- Activity newer than the cutoffs used below, with one receiver. -/
def actRecent : Activity :=
  [("date", .pstr "2024-05-02"), ("event_id", .pstr "e0"),
   ("transfer", .pdict [("receivers", .plist [.pdict [("party", .pstr "p")]])])]

/-- Activity older than the cutoffs used below. -/
def actStale : Activity :=
  [("date", .pstr "2024-01-01"), ("event_id", .pstr "e1")]

/-- Third activity of the stop-scenario feed (never examined). -/
def actThird : Activity :=
  [("date", .pstr "2023-12-01"), ("event_id", .pstr "e2")]

/-- Activity whose date equals the cutoff exactly, with one receiver and one
balance change. -/
def actEqualCutoff : Activity :=
  [("date", .pstr "2024-02-01T00:00:00Z"),
   ("transfer", .pdict
     [("receivers", .plist [.pdict [("party", .pstr "x")]]),
      ("balance_changes", .plist [])])]

/-- Activity carrying no `date` key, with one receiver. -/
def actNoDate : Activity :=
  [("event_id", .pstr "e3"),
   ("transfer", .pdict [("receivers", .plist [.pdict [("party", .pstr "q")]])])]

/-- Round-totals entry whose highest-priority synonym is present but empty
while the second synonym is non-empty. -/
def entryEmptyFirst : RoundTotalEntry :=
  { closed_round := none
    closed_round_effective_at := some ""
    effectiveAt := some "X"
    effective_at := none }

/-! Section: Order lemmas for the `(year, month)` tuple comparison -/

lemma ym_eq_of_not_lt {p q : Int × Int} (h1 : ¬ ymLt p q) (h2 : ¬ ymLt q p) : p = q := by
  obtain ⟨p1, p2⟩ := p
  obtain ⟨q1, q2⟩ := q
  unfold ymLt at h1 h2
  simp only [Prod.mk.injEq]
  constructor <;> omega

lemma not_ymLt_of_ymLe {p q : Int × Int} (h : ymLe p q) : ¬ ymLt q p := by
  obtain ⟨p1, p2⟩ := p
  obtain ⟨q1, q2⟩ := q
  unfold ymLe at h
  unfold ymLt
  omega

/-! Section: Running-maximum lemmas -/

lemma le_listMaxFrom (xs : List Nat) : ∀ m : Nat, m ≤ listMaxFrom m xs := by
  induction xs with
  | nil => intro m; simp [listMaxFrom]
  | cons x rest ih =>
    intro m
    have h := ih (max m x)
    simp only [listMaxFrom, List.foldl_cons] at h ⊢
    omega

lemma mem_le_listMaxFrom (xs : List Nat) : ∀ (m x : Nat), x ∈ xs → x ≤ listMaxFrom m xs := by
  induction xs with
  | nil => intro m x hx; cases hx
  | cons y rest ih =>
    intro m x hx
    rcases List.mem_cons.mp hx with h | h
    · subst h
      have h2 := le_listMaxFrom rest (max m x)
      simp only [listMaxFrom, List.foldl_cons] at h2 ⊢
      omega
    · exact ih (max m y) x h

lemma listMaxFrom_eq_or_mem (xs : List Nat) :
    ∀ m : Nat, listMaxFrom m xs = m ∨ listMaxFrom m xs ∈ xs := by
  induction xs with
  | nil => intro m; left; simp [listMaxFrom]
  | cons x rest ih =>
    intro m
    rcases ih (max m x) with h | h
    · simp only [listMaxFrom, List.foldl_cons] at h ⊢
      rcases Nat.le_total m x with hle | hle
      · right
        rw [h, Nat.max_eq_right hle]
        exact List.mem_cons_self _ _
      · left
        rw [h, Nat.max_eq_left hle]
    · right
      simp only [listMaxFrom, List.foldl_cons] at h ⊢
      exact List.mem_cons_of_mem _ h

/-! Section: Python range lemmas -/

lemma rangeUpAux_mem (step : Int) :
    ∀ (n : Nat) (start stop x : Int), x ∈ rangeUpAux step n start stop →
      (∃ k : Nat, x = start + k * step) ∧ start ≤ x ∧ x < stop := by
  intro n
  induction n with
  | zero => intro start stop x hx; simp [rangeUpAux] at hx
  | succ m ih =>
    intro start stop x hx
    simp only [rangeUpAux] at hx
    split at hx
    · rename_i hcond
      rcases List.mem_cons.mp hx with h | h
      · exact ⟨⟨0, by omega⟩, by omega, by omega⟩
      · obtain ⟨⟨k, hk⟩, h1, h2⟩ := ih (start + step) stop x h
        refine ⟨⟨k + 1, ?_⟩, by omega, h2⟩
        push_cast
        linarith
    · cases hx

lemma rangeUpAux_mem_of (step : Int) :
    ∀ (n : Nat) (start stop x : Int), 0 < step → (stop - start).toNat ≤ n →
      (∃ k : Nat, x = start + k * step) → start ≤ x → x < stop →
      x ∈ rangeUpAux step n start stop := by
  intro n
  induction n with
  | zero => intro start stop x hstep hn _ h1 h2; omega
  | succ m ih =>
    intro start stop x hstep hn ⟨k, hk⟩ h1 h2
    have hcond : 0 < step ∧ start < stop := ⟨hstep, by omega⟩
    simp only [rangeUpAux, if_pos hcond]
    rcases Nat.eq_zero_or_pos k with h0 | hpos
    · subst h0
      simp only [Nat.cast_zero, zero_mul, add_zero] at hk
      subst hk
      exact List.mem_cons_self _ _
    · refine List.mem_cons_of_mem _ (ih (start + step) stop x hstep (by omega) ⟨k - 1, ?_⟩ ?_ h2)
      · push_cast [hpos]
        linarith
      · have : (1 : Int) * step ≤ (k : Int) * step := by
          apply mul_le_mul_of_nonneg_right _ (le_of_lt hstep)
          exact_mod_cast hpos
        omega

/-! Section: Binary-search lemmas -/

/-- Soundness of the first search: a returned round is the seed or a probed
round inside the interval whose parsed period equals the target. -/
lemma searchFirstAux_some (f : Int → Option (Int × Int)) (w : Int → Int × Int)
    (tgt : Int × Int) :
    ∀ (fuel : Nat) (left right : Int) (acc : Option Int) (log : List (Int × Int)) (a : Int),
      (searchFirstAux f w tgt fuel left right acc log).1 = some a →
      acc = some a ∨ (f a = some tgt ∧ left ≤ a ∧ a ≤ right) := by
  intro fuel
  induction fuel with
  | zero => intro left right acc log a h; exact Or.inl h
  | succ n ih =>
    intro left right acc log a h
    by_cases hlr : left ≤ right
    · have hmid : left ≤ (left + right) / 2 ∧ (left + right) / 2 ≤ right := by omega
      simp only [searchFirstAux, if_pos hlr] at h
      split at h
      · rcases ih _ _ _ _ _ h with h1 | ⟨h2, h3, h4⟩
        · exact Or.inl h1
        · exact Or.inr ⟨h2, by omega, h4⟩
      · rename_i p hf
        split at h
        · rcases ih _ _ _ _ _ h with h1 | ⟨h2, h3, h4⟩
          · exact Or.inl h1
          · exact Or.inr ⟨h2, by omega, h4⟩
        · split at h
          · rcases ih _ _ _ _ _ h with h1 | ⟨h2, h3, h4⟩
            · exact Or.inl h1
            · exact Or.inr ⟨h2, h3, by omega⟩
          · rename_i hlt hgt
            have hpt : p = tgt := ym_eq_of_not_lt hlt hgt
            rcases ih _ _ _ _ _ h with h1 | ⟨h2, h3, h4⟩
            · right
              have ha : a = (left + right) / 2 := by
                injection h1 with h1'
                omega
              subst ha
              rw [hf, hpt]
              exact ⟨rfl, hmid.1, hmid.2⟩
            · exact Or.inr ⟨h2, h3, by omega⟩
    · simp only [searchFirstAux, if_neg hlr] at h
      exact Or.inl h

/-- Completeness of the first search: with a total, monotone index over
`[0, latestRound]` and either a target round inside the interval or an
already-recorded candidate, the search does not come back empty. -/
lemma searchFirstAux_finds (f : Int → Option (Int × Int)) (w : Int → Int × Int)
    (tgt : Int × Int) (latestRound : Int)
    (htot : ∀ x : Int, 0 ≤ x → x ≤ latestRound → f x ≠ none)
    (hmono : ∀ (r s : Int) (p q : Int × Int), 0 ≤ r → r ≤ s → s ≤ latestRound →
      f r = some p → f s = some q → ymLe p q) :
    ∀ (fuel : Nat) (left right : Int) (acc : Option Int) (log : List (Int × Int)),
      0 ≤ left → right ≤ latestRound → (right + 1 - left).toNat ≤ fuel →
      ((∃ s : Int, left ≤ s ∧ s ≤ right ∧ f s = some tgt) ∨ acc ≠ none) →
      (searchFirstAux f w tgt fuel left right acc log).1 ≠ none := by
  intro fuel
  induction fuel with
  | zero =>
    intro left right acc log h0 hR hn hpre
    rcases hpre with ⟨s, h1, h2, _⟩ | hacc
    · omega
    · exact hacc
  | succ n ih =>
    intro left right acc log h0 hR hn hpre
    by_cases hlr : left ≤ right
    · have hmid : left ≤ (left + right) / 2 ∧ (left + right) / 2 ≤ right := by omega
      simp only [searchFirstAux, if_pos hlr]
      split
      · rename_i hf
        exact absurd hf (htot _ (by omega) (by omega))
      · rename_i p hf
        split
        · rename_i hlt
          refine ih _ _ _ _ (by omega) hR (by omega) ?_
          rcases hpre with ⟨s, h1, h2, h3⟩ | hacc
          · left
            refine ⟨s, ?_, h2, h3⟩
            by_contra hcon
            have hs : s ≤ (left + right) / 2 := by omega
            have hle := hmono s ((left + right) / 2) tgt p (by omega) hs (by omega) h3 hf
            exact (not_ymLt_of_ymLe hle) hlt
          · exact Or.inr hacc
        · split
          · rename_i hnlt hgt
            refine ih _ _ _ _ h0 (by omega) (by omega) ?_
            rcases hpre with ⟨s, h1, h2, h3⟩ | hacc
            · left
              refine ⟨s, h1, ?_, h3⟩
              by_contra hcon
              have hs : (left + right) / 2 ≤ s := by omega
              have hle := hmono ((left + right) / 2) s p tgt (by omega) hs (by omega) hf h3
              exact (not_ymLt_of_ymLe hle) hgt
            · exact Or.inr hacc
          · refine ih _ _ _ _ h0 (by omega) (by omega) (Or.inr (by simp))
    · simp only [searchFirstAux, if_neg hlr]
      rcases hpre with ⟨s, h1, h2, _⟩ | hacc
      · omega
      · exact hacc

/-- Soundness of the second search: the returned round is the seed or a probed
round inside the interval whose parsed period equals the target. -/
lemma searchLastAux_spec (f : Int → Option (Int × Int)) (w : Int → Int × Int)
    (tgt : Int × Int) :
    ∀ (fuel : Nat) (left right : Int) (acc : Int) (log : List (Int × Int)),
      (searchLastAux f w tgt fuel left right acc log).1 = acc ∨
      (f (searchLastAux f w tgt fuel left right acc log).1 = some tgt ∧
        left ≤ (searchLastAux f w tgt fuel left right acc log).1 ∧
        (searchLastAux f w tgt fuel left right acc log).1 ≤ right) := by
  intro fuel
  induction fuel with
  | zero => intro left right acc log; exact Or.inl rfl
  | succ n ih =>
    intro left right acc log
    by_cases hlr : left ≤ right
    · have hmid : left ≤ (left + right) / 2 ∧ (left + right) / 2 ≤ right := by omega
      simp only [searchLastAux, if_pos hlr]
      split
      · rcases ih ((left + right) / 2 + 1) right acc _ with h | ⟨h1, h2, h3⟩
        · exact Or.inl h
        · exact Or.inr ⟨h1, by omega, h3⟩
      · rename_i p hf
        split
        · rcases ih left ((left + right) / 2 - 1) acc _ with h | ⟨h1, h2, h3⟩
          · exact Or.inl h
          · exact Or.inr ⟨h1, h2, by omega⟩
        · split
          · rcases ih ((left + right) / 2 + 1) right acc _ with h | ⟨h1, h2, h3⟩
            · exact Or.inl h
            · exact Or.inr ⟨h1, by omega, h3⟩
          · rename_i hngt hnlt
            have hpt : p = tgt := ym_eq_of_not_lt hnlt hngt
            rcases ih ((left + right) / 2 + 1) right ((left + right) / 2) _ with h | ⟨h1, h2, h3⟩
            · right
              rw [h, hf, hpt]
              exact ⟨rfl, hmid.1, hmid.2⟩
            · exact Or.inr ⟨h1, by omega, h3⟩
    · simp only [searchLastAux, if_neg hlr]
      left
      trivial

/-- Every window logged by the first search is an inherited log entry or the
window of a round inside the search interval. -/
lemma searchFirstAux_log (f : Int → Option (Int × Int)) (w : Int → Int × Int)
    (tgt : Int × Int) :
    ∀ (fuel : Nat) (left right : Int) (acc : Option Int) (log : List (Int × Int))
      (e : Int × Int), e ∈ (searchFirstAux f w tgt fuel left right acc log).2 →
      e ∈ log ∨ ∃ m : Int, left ≤ m ∧ m ≤ right ∧ e = w m := by
  intro fuel
  induction fuel with
  | zero => intro left right acc log e he; exact Or.inl he
  | succ n ih =>
    intro left right acc log e he
    by_cases hlr : left ≤ right
    · have hmid : left ≤ (left + right) / 2 ∧ (left + right) / 2 ≤ right := by omega
      simp only [searchFirstAux, if_pos hlr] at he
      have step : ∀ (l' r' : Int) (acc' : Option Int),
          left ≤ l' → r' ≤ right →
          e ∈ (searchFirstAux f w tgt n l' r' acc' (log ++ [w ((left + right) / 2)])).2 →
          e ∈ log ∨ ∃ m : Int, left ≤ m ∧ m ≤ right ∧ e = w m := by
        intro l' r' acc' hl' hr' hmem
        rcases ih l' r' acc' _ e hmem with h | ⟨m, hm1, hm2, hm3⟩
        · rcases List.mem_append.mp h with h' | h'
          · exact Or.inl h'
          · right
            refine ⟨(left + right) / 2, hmid.1, hmid.2, ?_⟩
            simpa using h'
        · exact Or.inr ⟨m, by omega, by omega, hm3⟩
      split at he
      · exact step _ _ _ (by omega) le_rfl he
      · split at he
        · exact step _ _ _ (by omega) le_rfl he
        · split at he
          · exact step _ _ _ le_rfl (by omega) he
          · exact step _ _ _ le_rfl (by omega) he
    · simp only [searchFirstAux, if_neg hlr] at he
      exact Or.inl he

/-- Every window logged by the second search is an inherited log entry or the
window of a round inside the search interval. -/
lemma searchLastAux_log (f : Int → Option (Int × Int)) (w : Int → Int × Int)
    (tgt : Int × Int) :
    ∀ (fuel : Nat) (left right : Int) (acc : Int) (log : List (Int × Int))
      (e : Int × Int), e ∈ (searchLastAux f w tgt fuel left right acc log).2 →
      e ∈ log ∨ ∃ m : Int, left ≤ m ∧ m ≤ right ∧ e = w m := by
  intro fuel
  induction fuel with
  | zero => intro left right acc log e he; exact Or.inl he
  | succ n ih =>
    intro left right acc log e he
    by_cases hlr : left ≤ right
    · have hmid : left ≤ (left + right) / 2 ∧ (left + right) / 2 ≤ right := by omega
      simp only [searchLastAux, if_pos hlr] at he
      have step : ∀ (l' r' : Int) (acc' : Int),
          left ≤ l' → r' ≤ right →
          e ∈ (searchLastAux f w tgt n l' r' acc' (log ++ [w ((left + right) / 2)])).2 →
          e ∈ log ∨ ∃ m : Int, left ≤ m ∧ m ≤ right ∧ e = w m := by
        intro l' r' acc' hl' hr' hmem
        rcases ih l' r' acc' _ e hmem with h | ⟨m, hm1, hm2, hm3⟩
        · rcases List.mem_append.mp h with h' | h'
          · exact Or.inl h'
          · right
            refine ⟨(left + right) / 2, hmid.1, hmid.2, ?_⟩
            simpa using h'
        · exact Or.inr ⟨m, by omega, by omega, hm3⟩
      split at he
      · exact step _ _ _ (by omega) le_rfl he
      · split at he
        · exact step _ _ _ le_rfl (by omega) he
        · split at he
          · exact step _ _ _ (by omega) le_rfl he
          · exact step _ _ _ (by omega) le_rfl he
    · simp only [searchLastAux, if_neg hlr] at he
      exact Or.inl he

/-- Helper: a successfully parsed probe exposes a truthy raw timestamp string
that parses to the probe's period. -/
lemma getEffectiveAtDt_some (gw : Gw) (parse : String → Option (Int × Int))
    (latestRound r : Int) (p : Int × Int)
    (h : getEffectiveAtDt gw parse latestRound r = some p) :
    ∃ s : String, getEffectiveAt gw latestRound r = some s ∧ s ≠ "" ∧
      parse (pyReplaceZ s) = some p := by
  unfold getEffectiveAtDt at h
  split at h
  · rename_i s hs
    split at h
    · cases h
    · rename_i hne
      exact ⟨s, hs, hne, h⟩
  · cases h

/-! Section: Claim C1 -/

/-- C1 (amended): for every `(year, month)` and every Gateway whose per-round
parsed periods are non-decreasing in round number and whose effective time is
resolvable and parseable at *every* round of `[0, latest_round]`, if some
round's period equals the target then `find_rounds_for_month` returns a
non-`None` result with `start_round ≤ end_round` whose start and end
timestamps both parse to the target `(year, month)` (i.e. fall within the
target month).  The totality requirement is the amendment: with an
unresolvable probe the search can skip the month (see the counterexample). -/
theorem findRoundsForMonth_finds_month (gw : Gw) (parse : String → Option (Int × Int))
    (year month latestRound : Int)
    (hL : gw.latest = some latestRound)
    (htot : ∀ r : Int, 0 ≤ r → r ≤ latestRound →
      getEffectiveAtDt gw parse latestRound r ≠ none)
    (hmono : ∀ (r s : Int) (p q : Int × Int), 0 ≤ r → r ≤ s → s ≤ latestRound →
      getEffectiveAtDt gw parse latestRound r = some p →
      getEffectiveAtDt gw parse latestRound s = some q → ymLe p q)
    (hex : ∃ r : Int, 0 ≤ r ∧ r ≤ latestRound ∧
      getEffectiveAtDt gw parse latestRound r = some (year, month)) :
    ∃ res : FindRoundsForMonthResult,
      findRoundsForMonth gw parse year month = some res ∧
      res.start_round ≤ res.end_round ∧
      (∃ s : String, res.start_time = some s ∧ parse (pyReplaceZ s) = some (year, month)) ∧
      (∃ s : String, res.end_time = some s ∧ parse (pyReplaceZ s) = some (year, month)) := by
  have hfind := searchFirstAux_finds (getEffectiveAtDt gw parse latestRound)
    (roundWindow latestRound) (year, month) latestRound htot hmono
    (latestRound + 1 - 0).toNat 0 latestRound none [] le_rfl le_rfl le_rfl (Or.inl hex)
  simp only [findRoundsForMonth, findRoundsForMonthFull, hL, searchFirstLog, searchLastLog]
  rcases hs1 : (searchFirstAux (getEffectiveAtDt gw parse latestRound)
      (roundWindow latestRound) (year, month) (latestRound + 1 - 0).toNat
      0 latestRound none []).1 with _ | first
  · exact absurd hs1 hfind
  · rcases searchFirstAux_some (getEffectiveAtDt gw parse latestRound)
        (roundWindow latestRound) (year, month) (latestRound + 1 - 0).toNat
        0 latestRound none [] first hs1 with h1 | ⟨hf1, hfa, hfb⟩
    · cases h1
    · rcases searchLastAux_spec (getEffectiveAtDt gw parse latestRound)
          (roundWindow latestRound) (year, month) (latestRound + 1 - first).toNat
          first latestRound first
          (searchFirstAux (getEffectiveAtDt gw parse latestRound)
            (roundWindow latestRound) (year, month) (latestRound + 1 - 0).toNat
            0 latestRound none []).2 with h2 | ⟨hf2, hga2, hlb2⟩
      · refine ⟨_, rfl, ?_, ?_, ?_⟩
        · rw [h2]
        · obtain ⟨s, hs, _, hp⟩ := getEffectiveAtDt_some gw parse latestRound first _ hf1
          exact ⟨s, hs, hp⟩
        · rw [h2]
          obtain ⟨s, hs, _, hp⟩ := getEffectiveAtDt_some gw parse latestRound first _ hf1
          exact ⟨s, hs, hp⟩
      · refine ⟨_, rfl, hga2, ?_, ?_⟩
        · obtain ⟨s, hs, _, hp⟩ := getEffectiveAtDt_some gw parse latestRound first _ hf1
          exact ⟨s, hs, hp⟩
        · obtain ⟨s, hs, _, hp⟩ := getEffectiveAtDt_some gw parse latestRound _ _ hf2
          exact ⟨s, hs, hp⟩

/-- C1 (counterexample): a Gateway with `latest_round = 2` whose resolvable
effective timestamps are non-decreasing (both as raw strings and as parsed
periods), whose round 0 resolvably and parseably falls in the target month
(2024, 4) — yet `find_rounds_for_month` returns `None`, because the probe at
the unresolved round 1 makes the first binary search skip left past round 0. -/
theorem findRoundsForMonth_misses_resolvable_month :
    gwAprilGap.latest = some 2 ∧
    (∀ (r s : Int) (t u : String), 0 ≤ r → r ≤ s → s ≤ 2 →
      getEffectiveAt gwAprilGap 2 r = some t → getEffectiveAt gwAprilGap 2 s = some u →
      strLe t u = true) ∧
    (∀ (r s : Int) (p q : Int × Int), 0 ≤ r → r ≤ s → s ≤ 2 →
      getEffectiveAtDt gwAprilGap parseYM 2 r = some p →
      getEffectiveAtDt gwAprilGap parseYM 2 s = some q → ymLe p q) ∧
    ((0 : Int) ≤ 0 ∧ (0 : Int) ≤ 2 ∧
      getEffectiveAtDt gwAprilGap parseYM 2 0 = some (2024, 4)) ∧
    findRoundsForMonth gwAprilGap parseYM 2024 4 = none := by
  have e0 : getEffectiveAt gwAprilGap 2 0 = some "2024-04-15T00:00:00Z" := by decide
  have e1 : getEffectiveAt gwAprilGap 2 1 = none := by decide
  have e2 : getEffectiveAt gwAprilGap 2 2 = some "2024-05-01T00:00:00Z" := by decide
  have d0 : getEffectiveAtDt gwAprilGap parseYM 2 0 = some (2024, 4) := by decide
  have d1 : getEffectiveAtDt gwAprilGap parseYM 2 1 = none := by decide
  have d2 : getEffectiveAtDt gwAprilGap parseYM 2 2 = some (2024, 5) := by decide
  refine ⟨rfl, ?_, ?_, ⟨le_rfl, by norm_num, d0⟩, by decide⟩
  · intro r s t u h0 hrs hs2
    have hr2 : r ≤ 2 := le_trans hrs hs2
    have h0s : (0 : Int) ≤ s := le_trans h0 hrs
    interval_cases r <;> interval_cases s <;>
      simp only [e0, e1, e2] <;> intro ht hu <;>
      first
        | (cases ht
           done)
        | (cases hu
           done)
        | (injection ht with ht'
           injection hu with hu'
           subst ht'
           subst hu'
           decide)
  · intro r s p q h0 hrs hs2
    have hr2 : r ≤ 2 := le_trans hrs hs2
    have h0s : (0 : Int) ≤ s := le_trans h0 hrs
    interval_cases r <;> interval_cases s <;>
      simp only [d0, d1, d2] <;> intro hp hq <;>
      first
        | (cases hp
           done)
        | (cases hq
           done)
        | (injection hp with hp'
           injection hq with hq'
           subst hp'
           subst hq'
           decide)

/-- C1 (witness): the amended theorem instantiated at the two-round April
Gateway. -/
theorem findRoundsForMonth_finds_month_witness :
    ∃ res : FindRoundsForMonthResult,
      findRoundsForMonth gwAprilPair parseYM 2024 4 = some res ∧
      res.start_round ≤ res.end_round ∧
      (∃ s : String, res.start_time = some s ∧ parseYM (pyReplaceZ s) = some (2024, 4)) ∧
      (∃ s : String, res.end_time = some s ∧ parseYM (pyReplaceZ s) = some (2024, 4)) := by
  have d0 : getEffectiveAtDt gwAprilPair parseYM 1 0 = some (2024, 4) := by decide
  have d1 : getEffectiveAtDt gwAprilPair parseYM 1 1 = some (2024, 4) := by decide
  refine findRoundsForMonth_finds_month gwAprilPair parseYM 2024 4 1 rfl ?_ ?_ ?_
  · intro r h0 h1
    interval_cases r
    · decide
    · decide
  · intro r s p q h0 hrs hs1
    have hr1 : r ≤ 1 := le_trans hrs hs1
    have h0s : (0 : Int) ≤ s := le_trans h0 hrs
    interval_cases r <;> interval_cases s <;>
      simp only [d0, d1] <;> intro hp hq <;>
      (injection hp with hp'
       injection hq with hq'
       subst hp'
       subst hq'
       decide)
  · exact ⟨0, le_rfl, by norm_num, d0⟩

/-! Section: Claim C9 -/

/-- C9: whenever `find_rounds_for_month` returns a non-`None` result against a
fixed (deterministic, here pure) Gateway, both `start_time` and `end_time` are
non-`None`, although the declared result type marks them optional: a round is
only recorded as first or last of the month after its timestamp resolved and
parsed. -/
theorem findRoundsForMonth_times_not_none (gw : Gw)
    (parse : String → Option (Int × Int)) (year month : Int)
    (res : FindRoundsForMonthResult)
    (h : findRoundsForMonth gw parse year month = some res) :
    res.start_time ≠ none ∧ res.end_time ≠ none := by
  unfold findRoundsForMonth findRoundsForMonthFull at h
  split at h
  · cases h
  · rename_i latestRound hL
    simp only [searchFirstLog, searchLastLog] at h
    split at h
    · cases h
    · rename_i first hs1
      simp only at h
      rw [Option.some_inj] at h
      subst h
      rcases searchFirstAux_some (getEffectiveAtDt gw parse latestRound)
          (roundWindow latestRound) (year, month) (latestRound + 1 - 0).toNat
          0 latestRound none [] first hs1 with h1 | ⟨hf1, _, _⟩
      · cases h1
      · obtain ⟨s, hs, _, _⟩ := getEffectiveAtDt_some gw parse latestRound first _ hf1
        constructor
        · simp [hs]
        · rcases searchLastAux_spec (getEffectiveAtDt gw parse latestRound)
              (roundWindow latestRound) (year, month) (latestRound + 1 - first).toNat
              first latestRound first
              (searchFirstAux (getEffectiveAtDt gw parse latestRound)
                (roundWindow latestRound) (year, month) (latestRound + 1 - 0).toNat
                0 latestRound none []).2 with h2 | ⟨hf2, _, _⟩
          · simp only [h2]
            simp [hs]
          · obtain ⟨u, hu, _, _⟩ := getEffectiveAtDt_some gw parse latestRound _ _ hf2
            simp only [Int.sub_zero] at hu
            simp [hu]

/-- C9 (witness): at the two-round April Gateway the result is `some` and both
times are non-`None`. -/
theorem findRoundsForMonth_times_not_none_witness :
    ({ start_round := 0, start_time := some "2024-04-01T00:00:00Z",
       end_round := 1, end_time := some "2024-04-20T00:00:00Z" } :
        FindRoundsForMonthResult).start_time ≠ none ∧
    ({ start_round := 0, start_time := some "2024-04-01T00:00:00Z",
       end_round := 1, end_time := some "2024-04-20T00:00:00Z" } :
        FindRoundsForMonthResult).end_time ≠ none :=
  findRoundsForMonth_times_not_none gwAprilPair parseYM 2024 4 _ (by decide)

/-! Section: Claim C4 -/

/-- C4 (amended): every `round_totals` call issued by one
`find_rounds_for_month` scan targets the aligned 200-round window
`[(r // 200) * 200, min((r // 200) * 200 + 199, latest_round)]` of some round
`r ∈ [0, latest_round]` — but a window may be fetched several times in one
scan: each probe re-fetches its window (there is no cache), and the two final
timestamp lookups fetch the windows of the found rounds again, so the number
of Gateway calls equals the number of probes plus two, not the number of
distinct windows (see the counterexample). -/
theorem findRounds_calls_within_probe_windows (gw : Gw)
    (parse : String → Option (Int × Int)) (year month latestRound : Int)
    (hL : gw.latest = some latestRound) (h0 : 0 ≤ latestRound) :
    ∀ e ∈ findRoundsCallLog gw parse year month,
      ∃ r : Int, 0 ≤ r ∧ r ≤ latestRound ∧ e = roundWindow latestRound r := by
  intro e he
  unfold findRoundsCallLog findRoundsForMonthFull at he
  split at he
  · rename_i hnone
    rw [hL] at hnone
    cases hnone
  · rename_i L hsome
    rw [hL] at hsome
    injection hsome with hsome'
    subst hsome'
    simp only [searchFirstLog, searchLastLog] at he
    split at he
    · rcases searchFirstAux_log (getEffectiveAtDt gw parse latestRound)
          (roundWindow latestRound) (year, month) (latestRound + 1 - 0).toNat
          0 latestRound none [] e he with h | ⟨m, hm1, hm2, hm3⟩
      · cases h
      · exact ⟨m, hm1, hm2, hm3⟩
    · rename_i first hs1
      rcases searchFirstAux_some (getEffectiveAtDt gw parse latestRound)
          (roundWindow latestRound) (year, month) (latestRound + 1 - 0).toNat
          0 latestRound none [] first hs1 with hbad | ⟨_, hfa, hfb⟩
      · cases hbad
      · simp only [List.mem_append] at he
        rcases he with he | he
        · rcases searchLastAux_log (getEffectiveAtDt gw parse latestRound)
              (roundWindow latestRound) (year, month) (latestRound + 1 - first).toNat
              first latestRound first _ e he with h | ⟨m, hm1, hm2, hm3⟩
          · rcases searchFirstAux_log (getEffectiveAtDt gw parse latestRound)
                (roundWindow latestRound) (year, month) (latestRound + 1 - 0).toNat
                0 latestRound none [] e h with h' | ⟨m, hm1, hm2, hm3⟩
            · cases h'
            · exact ⟨m, hm1, hm2, hm3⟩
          · exact ⟨m, by omega, hm2, hm3⟩
        · rcases List.mem_cons.mp he with he' | he'
          · exact ⟨first, hfa, hfb, he'⟩
          · rcases List.mem_cons.mp he' with he'' | he''
            · rcases searchLastAux_spec (getEffectiveAtDt gw parse latestRound)
                  (roundWindow latestRound) (year, month) (latestRound + 1 - first).toNat
                  first latestRound first
                  (searchFirstAux (getEffectiveAtDt gw parse latestRound)
                    (roundWindow latestRound) (year, month) (latestRound + 1 - 0).toNat
                    0 latestRound none []).2 with h2 | ⟨_, hga2, hlb2⟩
              · rw [h2] at he''
                exact ⟨first, hfa, hfb, he''⟩
              · exact ⟨_, by omega, hlb2, he''⟩
            · cases he''

/-- C4 (counterexample): on a single-round Gateway one scan issues four
`round_totals` calls, all for the same (single) window — the claim's
"each distinct window is fetched at most once, calls = distinct windows"
fails: 4 calls, 1 distinct window. -/
theorem findRounds_refetches_windows :
    findRoundsCallLog gwSingleApril parseYM 2024 4 = [(0, 0), (0, 0), (0, 0), (0, 0)] ∧
    (findRoundsCallLog gwSingleApril parseYM 2024 4).dedup = [(0, 0)] ∧
    (findRoundsCallLog gwSingleApril parseYM 2024 4).length ≠
      (findRoundsCallLog gwSingleApril parseYM 2024 4).dedup.length := by
  refine ⟨by decide, by decide, by decide⟩

/-- C4 (witness): the amended theorem instantiated at the single-round April
Gateway and the first logged call. -/
theorem findRounds_calls_within_probe_windows_witness :
    ∃ r : Int, 0 ≤ r ∧ r ≤ 0 ∧ ((0 : Int), (0 : Int)) = roundWindow 0 r :=
  findRounds_calls_within_probe_windows gwSingleApril parseYM 2024 4 0 rfl le_rfl
    (0, 0) (by decide)

/-! Section: Claim C5 -/

/-- C5 (amended): when the Gateway's latest-round query yields no round
number, only `get_latest_wallet_balance` raises an explicit failure
(`ValueError("Could not determine latest round")`); `find_rounds_for_month`
silently returns `None` and `export_all_round_party_totals_to_csv` logs a
message and returns without creating the output file. -/
theorem missingLatestRound_behaviour (gw : Gw) (hgw : gw.latest = none)
    (partyId : String) (parse : String → Option (Int × Int))
    (year month startRound batchSize : Int) :
    getLatestWalletBalance gw partyId = Except.error "Could not determine latest round" ∧
    findRoundsForMonth gw parse year month = none ∧
    exportAllRoundPartyTotalsToCsv gw startRound batchSize = none := by
  refine ⟨?_, ?_, ?_⟩ <;>
    simp [getLatestWalletBalance, findRoundsForMonth, findRoundsForMonthFull,
      exportAllRoundPartyTotalsToCsv, hgw]

/-- C5 (counterexample): at a concrete Gateway without a latest round,
`find_rounds_for_month` evaluates to the ordinary no-data value `None` and
`export_all_round_party_totals_to_csv` returns without output — neither is a
raised failure, refuting the claim that all three operations raise; only
`get_latest_wallet_balance` does. -/
theorem missingLatestRound_counterexample :
    getLatestWalletBalance gwNoLatest "party-a" =
      Except.error "Could not determine latest round" ∧
    findRoundsForMonth gwNoLatest parseYM 2024 4 = none ∧
    exportAllRoundPartyTotalsToCsv gwNoLatest 0 50 = none :=
  ⟨rfl, rfl, rfl⟩

/-- C5 (witness): the amended theorem instantiated at the same Gateway with
different arguments. -/
theorem missingLatestRound_behaviour_witness :
    getLatestWalletBalance gwNoLatest "party-b" =
      Except.error "Could not determine latest round" ∧
    findRoundsForMonth gwNoLatest parseYM 2023 12 = none ∧
    exportAllRoundPartyTotalsToCsv gwNoLatest 10 50 = none :=
  missingLatestRound_behaviour gwNoLatest rfl "party-b" parseYM 2023 12 10 50

/-! Section: Claim C7 -/

/-- C7 (amended): the three per-round-timestamp readers — the month
resolver's lookup, the range-series prefetch and the last-10-rounds
prefetch — use one and the same synonym chain, which takes the first synonym
that is present *and non-empty* (truthy) in the fixed priority order
`closed_round_effective_at`, `effectiveAt`, `effective_at`; the guarded chain
value (as every call site consumes it) equals that first truthy synonym. -/
theorem effAt_synonym_chains_agree (e : RoundTotalEntry) :
    resolverEffAt e = rangeSeriesEffAt e ∧
    rangeSeriesEffAt e = last10EffAt e ∧
    (if truthyS (resolverEffAt e) then resolverEffAt e else none) = specFirstTruthy e := by
  refine ⟨rfl, rfl, ?_⟩
  obtain ⟨cr, a, b, c⟩ := e
  rcases a with _ | sa <;> rcases b with _ | sb <;> rcases c with _ | sc <;>
    simp only [resolverEffAt, specFirstTruthy, pyOr, truthyS] <;>
    split_ifs <;> simp_all

/-- C7 (counterexample): on an entry whose first synonym is present but empty
the chain yields the second synonym, not the first *present* one — "prefer
the first present" fails; the chain prefers the first present non-empty. -/
theorem effAt_chain_skips_present_empty_synonym :
    resolverEffAt entryEmptyFirst = some "X" ∧
    specFirstPresent entryEmptyFirst = some "" ∧
    resolverEffAt entryEmptyFirst ≠ specFirstPresent entryEmptyFirst :=
  ⟨rfl, rfl, by decide⟩

/-! Section: Claim C6 -/

/-- C6: over `[a, b]` with stride `step ≥ 1` the range-series builder yields
exactly one sample per round of `a, a + step, a + 2·step, ...`, with `b`
included exactly when `b - a` is a multiple of the stride; and the concrete
scenario: balances "100.0"@50 and "150.0"@60 sampled with step 10 over
`[50, 60]` give exactly the two expected samples. -/
theorem walletBalancesForRounds_stride (gw : Gw) (partyId : String) (a b step : Int)
    (hstep : 1 ≤ step) :
    ((getWalletBalancesForRounds gw partyId a b step).map BalanceSampleRow.round
        = rangeUp a (b + 1) step) ∧
    (a ≤ b → (b ∈ (getWalletBalancesForRounds gw partyId a b step).map BalanceSampleRow.round
        ↔ (b - a) % step = 0)) ∧
    getWalletBalancesForRounds gwStepBalances "party-a" 50 60 10 =
      [{ round := 50, effective_time := none, wallet_balance := some "100.0" },
       { round := 60, effective_time := none, wallet_balance := some "150.0" }] := by
  have hmap : (getWalletBalancesForRounds gw partyId a b step).map BalanceSampleRow.round
      = rangeUp a (b + 1) step := by
    simp [getWalletBalancesForRounds, List.map_map, Function.comp_def]
  refine ⟨hmap, ?_, by decide⟩
  intro hab
  rw [hmap]
  constructor
  · intro hmem
    obtain ⟨⟨k, hk⟩, _, _⟩ := rangeUpAux_mem step _ a (b + 1) b hmem
    have hdvd : step ∣ (b - a) := ⟨k, by linarith⟩
    exact Int.emod_eq_zero_of_dvd hdvd
  · intro hmod
    obtain ⟨c, hc⟩ := Int.dvd_of_emod_eq_zero hmod
    have hc0 : 0 ≤ c := by nlinarith
    refine rangeUpAux_mem_of step _ a (b + 1) b (by omega) le_rfl ⟨c.toNat, ?_⟩ hab (by omega)
    rw [Int.toNat_of_nonneg hc0]
    linarith

/-- C6 (witness): the stride theorem instantiated at the scenario Gateway. -/
theorem walletBalancesForRounds_stride_witness :
    ((getWalletBalancesForRounds gwStepBalances "party-a" 50 60 10).map BalanceSampleRow.round
        = rangeUp 50 (60 + 1) 10) ∧
    ((50 : Int) ≤ 60 →
      ((60 : Int) ∈ (getWalletBalancesForRounds gwStepBalances "party-a" 50 60 10).map
          BalanceSampleRow.round ↔ ((60 : Int) - 50) % 10 = 0)) ∧
    getWalletBalancesForRounds gwStepBalances "party-a" 50 60 10 =
      [{ round := 50, effective_time := none, wallet_balance := some "100.0" },
       { round := 60, effective_time := none, wallet_balance := some "150.0" }] :=
  walletBalancesForRounds_stride gwStepBalances "party-a" 50 60 10 (by norm_num)

/-! Section: Discovery-pass lemmas -/

/-- The per-record body equals a uniform maxima update: a record without a
truthy `transfer` contributes list length 0, which leaves a running maximum
unchanged. -/
lemma absorbActivity_eq (st : Pass1St) (a : Activity) :
    absorbActivity st a =
      { begin_after_id := st.begin_after_id
        total_scanned := st.total_scanned + 1
        max_receivers := max st.max_receivers (recvLenOf a)
        max_balance_changes := max st.max_balance_changes (bcLenOf a)
        all_flattened := st.all_flattened ++ [a]
        inspected := st.inspected + 1 } := by
  unfold absorbActivity recvLenOf bcLenOf
  rcases htr : dictGet a "transfer" with _ | s | n | xs | kvs <;>
    simp only [htr, truthyB, transferGetList, pyLen] <;>
    split_ifs <;>
    simp_all [transferGetList, pyLen]

/-- Characterisation of one batch of the discovery pass: the records before
the first stale one are absorbed in order; the flag records whether the batch
stopped early. -/
lemma scanBatch_spec (cutoff : String) :
    ∀ (acts : List Activity) (st : Pass1St),
      scanBatch cutoff st acts =
        ({ begin_after_id := st.begin_after_id
           total_scanned :=
             st.total_scanned + (acts.takeWhile (fun x => !stopsAtB x cutoff)).length
           max_receivers := listMaxFrom st.max_receivers
             ((acts.takeWhile (fun x => !stopsAtB x cutoff)).map recvLenOf)
           max_balance_changes := listMaxFrom st.max_balance_changes
             ((acts.takeWhile (fun x => !stopsAtB x cutoff)).map bcLenOf)
           all_flattened := st.all_flattened ++ acts.takeWhile (fun x => !stopsAtB x cutoff)
           inspected := st.inspected + (acts.takeWhile (fun x => !stopsAtB x cutoff)).length +
             (if (acts.takeWhile (fun x => !stopsAtB x cutoff)).length < acts.length
              then 1 else 0) },
         decide ((acts.takeWhile (fun x => !stopsAtB x cutoff)).length < acts.length)) := by
  intro acts
  induction acts with
  | nil =>
    intro st
    simp [scanBatch, listMaxFrom]
  | cons a rest ih =>
    intro st
    by_cases hstop : stopsAtB a cutoff
    · have hpre : (a :: rest).takeWhile (fun x => !stopsAtB x cutoff) = [] := by
        simp [List.takeWhile_cons, hstop]
      rw [hpre]
      simp only [scanBatch, if_pos hstop]
      simp [listMaxFrom, Prod.ext_iff, Pass1St.mk.injEq]
    · have hpre : (a :: rest).takeWhile (fun x => !stopsAtB x cutoff)
          = a :: rest.takeWhile (fun x => !stopsAtB x cutoff) := by
        simp [List.takeWhile_cons, hstop]
      rw [hpre]
      simp only [scanBatch, if_neg hstop]
      rw [ih (absorbActivity st a), absorbActivity_eq]
      refine Prod.ext ?_ ?_
      · ext
        · rfl
        · simp only [List.length_cons]
          omega
        · simp [listMaxFrom]
        · simp [listMaxFrom]
        · simp
        · simp only [List.length_cons, Nat.add_lt_add_iff_right]
          omega
      · simp only [List.length_cons]
        rw [decide_eq_decide]
        omega

/-- A truthy cursor is never the initial empty cursor, so the single-page
Gateway serves the empty page for it. -/
lemma gwOfList_truthy_cursor (L : List Activity) (pageSize : Int) (c : PyObj)
    (h : truthyB c = true) : (gwOfList L).list_activity pageSize c = [] := by
  rcases c with _ | s | n | xs | kvs <;> simp_all [gwOfList, truthyB]

/-- Characterisation of the whole discovery pass over a single-page feed:
it terminates within fuel 2 and its state is determined by the prefix of the
feed before the first stale record. -/
lemma pass1Loop_single (L : List Activity) (cutoff : String) (pageSize : Int) :
    ∃ st : Pass1St,
      pass1Loop (gwOfList L) cutoff pageSize 2 initSt = some st ∧
      st.all_flattened = L.takeWhile (fun x => !stopsAtB x cutoff) ∧
      st.max_receivers = listMax ((L.takeWhile (fun x => !stopsAtB x cutoff)).map recvLenOf) ∧
      st.max_balance_changes =
        listMax ((L.takeWhile (fun x => !stopsAtB x cutoff)).map bcLenOf) ∧
      st.inspected = (L.takeWhile (fun x => !stopsAtB x cutoff)).length +
        (if (L.takeWhile (fun x => !stopsAtB x cutoff)).length < L.length then 1 else 0) := by
  rcases L with _ | ⟨a0, rest⟩
  · refine ⟨initSt, ?_, by simp [initSt], by simp [initSt, listMax, listMaxFrom],
      by simp [initSt, listMax, listMaxFrom], by simp [initSt]⟩
    simp [pass1Loop, gwOfList, initSt]
  · have hacts : (gwOfList (a0 :: rest)).list_activity pageSize initSt.begin_after_id
        = a0 :: rest := by
      simp [gwOfList, initSt]
    have hsb := scanBatch_spec cutoff (a0 :: rest) initSt
    by_cases hflag : ((a0 :: rest).takeWhile (fun x => !stopsAtB x cutoff)).length
        < (a0 :: rest).length
    · have hflagB : (scanBatch cutoff initSt (a0 :: rest)).2 = true := by
        rw [hsb]
        exact decide_eq_true hflag
      have hloop : pass1Loop (gwOfList (a0 :: rest)) cutoff pageSize 2 initSt
          = some (scanBatch cutoff initSt (a0 :: rest)).1 := by
        simp only [pass1Loop]
        rw [hacts]
        simp only [List.isEmpty_cons]
        rw [if_neg (by simp)]
        rw [if_pos hflagB]
      refine ⟨(scanBatch cutoff initSt (a0 :: rest)).1, hloop, ?_, ?_, ?_, ?_⟩ <;>
        rw [hsb] <;>
        simp [initSt, listMax]
    · have hflagB : (scanBatch cutoff initSt (a0 :: rest)).2 = false := by
        rw [hsb]
        exact decide_eq_false hflag
      have hloop : pass1Loop (gwOfList (a0 :: rest)) cutoff pageSize 2 initSt
          = some { (scanBatch cutoff initSt (a0 :: rest)).1 with
                   begin_after_id :=
                     match (a0 :: rest).getLast? with
                     | some a => dictGet a "event_id"
                     | none => PyObj.pnone } := by
        simp only [pass1Loop]
        rw [hacts]
        simp only [List.isEmpty_cons]
        rw [if_neg (by simp)]
        rw [if_neg (by rw [hflagB]; simp)]
        split
        · rfl
        · rename_i hcond
          have htru : truthyB (match (a0 :: rest).getLast? with
              | some a => dictGet a "event_id"
              | none => PyObj.pnone) = true := by
            simp only [Bool.or_eq_true, not_or, Bool.not_eq_true] at hcond
            obtain ⟨hx1, _⟩ := hcond
            simpa using hx1
          rw [gwOfList_truthy_cursor (a0 :: rest) pageSize _ htru]
          simp
      refine ⟨_, hloop, ?_, ?_, ?_, ?_⟩ <;>
        rw [hsb] <;>
        simp [initSt, listMax]

/-- When no buffered record is stale, the write pass flattens the whole
buffer. -/
lemma pass2Rows_eq_map (cutoff : String) (maxR maxB : Nat) :
    ∀ buf : List Activity, (∀ a ∈ buf, stopsAtB a cutoff = false) →
      pass2Rows cutoff maxR maxB buf = buf.map (fun a => flatten a maxR maxB) := by
  intro buf
  induction buf with
  | nil => intro _; rfl
  | cons a rest ih =>
    intro h
    have ha := h a (List.mem_cons_self a rest)
    simp only [pass2Rows, ha, Bool.false_eq_true, if_neg (by simp : ¬ False), List.map_cons]
    rw [ih (fun x hx => h x (List.mem_cons_of_mem a hx))]

/-- An index whose element fails the predicate bounds the takeWhile prefix. -/
lemma takeWhile_length_le_of_get_false {α : Type} (p : α → Bool) :
    ∀ (l : List α) (k : Nat) (hk : k < l.length), p (l.get ⟨k, hk⟩) = false →
      (l.takeWhile p).length ≤ k := by
  intro l
  induction l with
  | nil => intro k hk _; simp at hk
  | cons a rest ih =>
    intro k hk h
    rw [List.takeWhile_cons]
    cases k with
    | zero =>
      simp only [List.get] at h
      simp [h]
    | succ m =>
      by_cases hpa : p a
      · simp only [if_pos hpa, List.length_cons]
        have := ih m (by simpa using hk) h
        omega
      · simp [hpa]

/-- When every element up to index `k` satisfies the predicate, the takeWhile
prefix is longer than `k`. -/
lemma lt_takeWhile_length_of_prefix_true {α : Type} (p : α → Bool) :
    ∀ (l : List α) (k : Nat), k < l.length →
      (∀ (j : Nat) (hj : j < l.length), j ≤ k → p (l.get ⟨j, hj⟩) = true) →
      k < (l.takeWhile p).length := by
  intro l
  induction l with
  | nil => intro k hk _; simp at hk
  | cons a rest ih =>
    intro k hk h
    have hpa : p a = true := h 0 (by simp) (Nat.zero_le k)
    rw [List.takeWhile_cons, if_pos hpa]
    cases k with
    | zero => simp
    | succ m =>
      simp only [List.length_cons]
      have := ih m (by simpa using hk)
        (fun j hj hjm => h (j + 1) (by simpa using hj) (by omega))
      omega

/-! Section: Claim C2 -/

/-- C2: in pass 1, a record whose (present, non-empty) `date` compares below
the cutoff stops the scan: that record and every record after it are excluded
from the buffer and from the output rows; and in the 3-record scenario where
the record following record 0 is stale, exactly one output row is written
(record 0) and pass-1 discovery examined exactly records 0 and 1 — never the
third. -/
theorem exportActivities_stops_at_stale_record :
    (∀ (L : List Activity) (cutoff : String) (pageSize : Int) (k : Nat) (hk : k < L.length),
      stopsAtB (L.get ⟨k, hk⟩) cutoff = true →
      ∃ st : Pass1St,
        pass1Loop (gwOfList L) cutoff pageSize 2 initSt = some st ∧
        (∃ m : Nat, m ≤ k ∧ st.all_flattened = L.take m) ∧
        st.all_flattened.length ≤ k ∧
        exportActivitiesAfter (gwOfList L) cutoff pageSize 2 =
          some { header := allFieldnames st.all_flattened st.max_receivers st.max_balance_changes
                 rows := st.all_flattened.map
                   (fun a => flatten a st.max_receivers st.max_balance_changes) }) ∧
    (∀ (a0 a1 a2 : Activity) (cutoff : String) (pageSize : Int),
      stopsAtB a0 cutoff = false → stopsAtB a1 cutoff = true →
      ∃ st : Pass1St,
        pass1Loop (gwOfList [a0, a1, a2]) cutoff pageSize 2 initSt = some st ∧
        st.all_flattened = [a0] ∧
        st.inspected = 2 ∧
        exportActivitiesAfter (gwOfList [a0, a1, a2]) cutoff pageSize 2 =
          some { header := allFieldnames [a0] st.max_receivers st.max_balance_changes
                 rows := [flatten a0 st.max_receivers st.max_balance_changes] }) := by
  constructor
  · intro L cutoff pageSize k hk hstop
    obtain ⟨st, hloop, hbuf, hmr, hmb, hins⟩ := pass1Loop_single L cutoff pageSize
    have hnostop : ∀ a ∈ st.all_flattened, stopsAtB a cutoff = false := by
      intro a ha
      rw [hbuf] at ha
      have := List.mem_takeWhile_imp ha
      simpa using this
    have hlen : st.all_flattened.length ≤ k := by
      rw [hbuf]
      exact takeWhile_length_le_of_get_false _ L k hk (by simp only [hstop, Bool.not_true])
    refine ⟨st, hloop, ⟨st.all_flattened.length, hlen, ?_⟩, hlen, ?_⟩
    · rw [hbuf]
      have hpref : L.takeWhile (fun x => !stopsAtB x cutoff) <+: L :=
        List.takeWhile_prefix _
      exact List.prefix_iff_eq_take.mp hpref
    · unfold exportActivitiesAfter
      rw [hloop]
      show some (CsvOut.mk
          (allFieldnames st.all_flattened st.max_receivers st.max_balance_changes)
          (pass2Rows cutoff st.max_receivers st.max_balance_changes st.all_flattened))
        = some (CsvOut.mk
          (allFieldnames st.all_flattened st.max_receivers st.max_balance_changes)
          (st.all_flattened.map
            (fun a => flatten a st.max_receivers st.max_balance_changes)))
      rw [pass2Rows_eq_map cutoff st.max_receivers st.max_balance_changes
        st.all_flattened hnostop]
  · intro a0 a1 a2 cutoff pageSize h0 h1
    have hpre : ([a0, a1, a2]).takeWhile (fun x => !stopsAtB x cutoff) = [a0] := by
      simp [List.takeWhile_cons, h0, h1]
    obtain ⟨st, hloop, hbuf, hmr, hmb, hins⟩ := pass1Loop_single [a0, a1, a2] cutoff pageSize
    rw [hpre] at hbuf hmr hmb hins
    have hnostop : ∀ a ∈ st.all_flattened, stopsAtB a cutoff = false := by
      intro a ha
      rw [hbuf] at ha
      rcases List.mem_singleton.mp ha with h
      rw [h]
      exact h0
    refine ⟨st, hloop, hbuf, ?_, ?_⟩
    · rw [hins]
      norm_num
    · unfold exportActivitiesAfter
      rw [hloop]
      show some (CsvOut.mk
          (allFieldnames st.all_flattened st.max_receivers st.max_balance_changes)
          (pass2Rows cutoff st.max_receivers st.max_balance_changes st.all_flattened))
        = some (CsvOut.mk (allFieldnames [a0] st.max_receivers st.max_balance_changes)
          [flatten a0 st.max_receivers st.max_balance_changes])
      rw [pass2Rows_eq_map cutoff st.max_receivers st.max_balance_changes
        st.all_flattened hnostop, hbuf]
      rfl

/-- C2 (witness): the scenario part instantiated at concrete records. -/
theorem exportActivities_stops_at_stale_record_witness :
    ∃ st : Pass1St,
      pass1Loop (gwOfList [actRecent, actStale, actThird]) "2024-02-01" 1000 2 initSt
        = some st ∧
      st.all_flattened = [actRecent] ∧
      st.inspected = 2 ∧
      exportActivitiesAfter (gwOfList [actRecent, actStale, actThird]) "2024-02-01" 1000 2 =
        some { header := allFieldnames [actRecent] st.max_receivers st.max_balance_changes
               rows := [flatten actRecent st.max_receivers st.max_balance_changes] } :=
  exportActivities_stops_at_stale_record.2 actRecent actStale actThird "2024-02-01" 1000
    (by decide) (by decide)

/-! Section: Claim C3 -/

/-- C3 (amended): the maxima discovered by pass 1 equal the true maximum
lengths of `transfer.receivers` / `transfer.balance_changes` — an upper bound
that is attained unless zero — taken over exactly the records that precede
the first record whose present, non-empty `date` is below the cutoff (the
scanned prefix), not over the records strictly newer than the cutoff: a
record whose date equals the cutoff (or is falsy) is counted although it is
not strictly newer (see the counterexample). -/
theorem pass1_maxima_over_scanned_prefix (L : List Activity) (cutoff : String)
    (pageSize : Int) :
    ∃ st : Pass1St,
      pass1Loop (gwOfList L) cutoff pageSize 2 initSt = some st ∧
      st.max_receivers =
        listMax ((L.takeWhile (fun x => !stopsAtB x cutoff)).map recvLenOf) ∧
      st.max_balance_changes =
        listMax ((L.takeWhile (fun x => !stopsAtB x cutoff)).map bcLenOf) ∧
      (∀ a ∈ L.takeWhile (fun x => !stopsAtB x cutoff), recvLenOf a ≤ st.max_receivers) ∧
      (∀ a ∈ L.takeWhile (fun x => !stopsAtB x cutoff),
        bcLenOf a ≤ st.max_balance_changes) ∧
      (st.max_receivers = 0 ∨
        ∃ a ∈ L.takeWhile (fun x => !stopsAtB x cutoff),
          recvLenOf a = st.max_receivers) ∧
      (st.max_balance_changes = 0 ∨
        ∃ a ∈ L.takeWhile (fun x => !stopsAtB x cutoff),
          bcLenOf a = st.max_balance_changes) := by
  obtain ⟨st, hloop, hbuf, hmr, hmb, hins⟩ := pass1Loop_single L cutoff pageSize
  refine ⟨st, hloop, hmr, hmb, ?_, ?_, ?_, ?_⟩
  · intro a ha
    rw [hmr]
    exact mem_le_listMaxFrom _ 0 _ (List.mem_map_of_mem recvLenOf ha)
  · intro a ha
    rw [hmb]
    exact mem_le_listMaxFrom _ 0 _ (List.mem_map_of_mem bcLenOf ha)
  · rw [hmr]
    rcases listMaxFrom_eq_or_mem
        ((L.takeWhile (fun x => !stopsAtB x cutoff)).map recvLenOf) 0 with h | h
    · exact Or.inl h
    · right
      obtain ⟨a, ha, hval⟩ := List.mem_map.mp h
      exact ⟨a, ha, hval⟩
  · rw [hmb]
    rcases listMaxFrom_eq_or_mem
        ((L.takeWhile (fun x => !stopsAtB x cutoff)).map bcLenOf) 0 with h | h
    · exact Or.inl h
    · right
      obtain ⟨a, ha, hval⟩ := List.mem_map.mp h
      exact ⟨a, ha, hval⟩

/-- C3 (counterexample): a single-record feed whose date equals the cutoff:
its one receiver is counted by pass 1 (`max_receivers = 1`), but the set of
records strictly newer than the cutoff is empty, so the true maximum over
that set is 0 — the discovered maxima do not equal the maxima over the
strictly-newer records. -/
theorem pass1_maxima_count_equal_cutoff_record :
    pass1Loop (gwOfList [actEqualCutoff]) "2024-02-01T00:00:00Z" 1000 2 initSt =
      some { begin_after_id := .pnone
             total_scanned := 1
             max_receivers := 1
             max_balance_changes := 0
             all_flattened := [actEqualCutoff]
             inspected := 1 } ∧
    ([actEqualCutoff].filter
      (fun a => strictlyNewerB "2024-02-01T00:00:00Z" a)).map recvLenOf = [] ∧
    listMax (([actEqualCutoff].filter
      (fun a => strictlyNewerB "2024-02-01T00:00:00Z" a)).map recvLenOf) = 0 ∧
    (1 : Nat) ≠ 0 :=
  ⟨rfl, rfl, rfl, by decide⟩

/-! Section: Claim C8 -/

/-- C8: an activity feed whose first page is empty makes
`export_activities_after` complete without error, producing an empty header
and no data rows. -/
theorem exportActivities_empty_feed (gw : ActivityGw) (cutoff : String) (pageSize : Int)
    (h : gw.list_activity pageSize (.pstr "") = []) :
    exportActivitiesAfter gw cutoff pageSize 1 = some { header := [], rows := [] } := by
  have h' : gw.list_activity pageSize initSt.begin_after_id = [] := h
  unfold exportActivitiesAfter
  simp only [pass1Loop]
  rw [h']
  rfl

/-- C8 (witness): the empty single-page feed. -/
theorem exportActivities_empty_feed_witness :
    exportActivitiesAfter (gwOfList []) "2024-01-01" 1000 1 = some { header := [], rows := [] } :=
  exportActivities_empty_feed (gwOfList []) "2024-01-01" 1000 rfl

/-! Section: Claim C10 -/

/-- C10: a record whose `date` is missing, `None` or empty never triggers the
stop condition: provided no earlier record stopped the scan, it is buffered
by pass 1 (scanning continues past it), its transfer list lengths are counted
toward the maxima, and its flattening is written as an output row by pass 2
regardless of the cutoff. -/
theorem falsy_date_record_never_stops (L : List Activity) (cutoff : String) (pageSize : Int)
    (k : Nat) (hk : k < L.length)
    (hfalsy : truthyB (dictGet (L.get ⟨k, hk⟩) "date") = false)
    (hbefore : ∀ (j : Nat) (hj : j < L.length), j < k →
      stopsAtB (L.get ⟨j, hj⟩) cutoff = false) :
    ∃ st : Pass1St,
      pass1Loop (gwOfList L) cutoff pageSize 2 initSt = some st ∧
      k < st.all_flattened.length ∧
      L.get ⟨k, hk⟩ ∈ st.all_flattened ∧
      recvLenOf (L.get ⟨k, hk⟩) ≤ st.max_receivers ∧
      bcLenOf (L.get ⟨k, hk⟩) ≤ st.max_balance_changes ∧
      exportActivitiesAfter (gwOfList L) cutoff pageSize 2 =
        some { header := allFieldnames st.all_flattened st.max_receivers st.max_balance_changes
               rows := st.all_flattened.map
                 (fun a => flatten a st.max_receivers st.max_balance_changes) } ∧
      flatten (L.get ⟨k, hk⟩) st.max_receivers st.max_balance_changes ∈
        st.all_flattened.map (fun a => flatten a st.max_receivers st.max_balance_changes) := by
  obtain ⟨st, hloop, hbuf, hmr, hmb, hins⟩ := pass1Loop_single L cutoff pageSize
  have hkstop : stopsAtB (L.get ⟨k, hk⟩) cutoff = false := by
    simp only [stopsAtB, hfalsy, Bool.false_and]
  have hklt : k < (L.takeWhile (fun x => !stopsAtB x cutoff)).length := by
    refine lt_takeWhile_length_of_prefix_true _ L k hk ?_
    intro j hj hjk
    rcases Nat.lt_or_ge j k with hlt | hge
    · simp only [hbefore j hj hlt, Bool.not_false]
    · have hjk' : j = k := by omega
      subst hjk'
      simp only [hkstop, Bool.not_false]
  have hget : (L.takeWhile (fun x => !stopsAtB x cutoff)).get ⟨k, hklt⟩ = L.get ⟨k, hk⟩ := by
    have hpref : L.takeWhile (fun x => !stopsAtB x cutoff) <+: L :=
      List.takeWhile_prefix _
    simp only [List.get_eq_getElem]
    exact hpref.getElem hklt
  have hmem : L.get ⟨k, hk⟩ ∈ st.all_flattened := by
    rw [hbuf, ← hget]
    exact List.get_mem _ _ _
  have hnostop : ∀ a ∈ st.all_flattened, stopsAtB a cutoff = false := by
    intro a ha
    rw [hbuf] at ha
    have := List.mem_takeWhile_imp ha
    simpa using this
  refine ⟨st, hloop, ?_, hmem, ?_, ?_, ?_, ?_⟩
  · rw [hbuf]
    exact hklt
  · rw [hmr]
    refine mem_le_listMaxFrom _ 0 _ (List.mem_map_of_mem recvLenOf ?_)
    rw [← hbuf]
    exact hmem
  · rw [hmb]
    refine mem_le_listMaxFrom _ 0 _ (List.mem_map_of_mem bcLenOf ?_)
    rw [← hbuf]
    exact hmem
  · unfold exportActivitiesAfter
    rw [hloop]
    show some (CsvOut.mk
        (allFieldnames st.all_flattened st.max_receivers st.max_balance_changes)
        (pass2Rows cutoff st.max_receivers st.max_balance_changes st.all_flattened))
      = some (CsvOut.mk
        (allFieldnames st.all_flattened st.max_receivers st.max_balance_changes)
        (st.all_flattened.map
          (fun a => flatten a st.max_receivers st.max_balance_changes)))
    rw [pass2Rows_eq_map cutoff st.max_receivers st.max_balance_changes
      st.all_flattened hnostop]
  · exact List.mem_map_of_mem _ hmem

/-- C10 (witness): a record without a `date` key followed by a stale record:
it is buffered, counted and written although the cutoff postdates the feed. -/
theorem falsy_date_record_never_stops_witness :
    ∃ st : Pass1St,
      pass1Loop (gwOfList [actNoDate, actStale]) "2024-02-01" 1000 2 initSt = some st ∧
      0 < st.all_flattened.length ∧
      [actNoDate, actStale].get ⟨0, by norm_num⟩ ∈ st.all_flattened ∧
      recvLenOf ([actNoDate, actStale].get ⟨0, by norm_num⟩) ≤ st.max_receivers ∧
      bcLenOf ([actNoDate, actStale].get ⟨0, by norm_num⟩) ≤ st.max_balance_changes ∧
      exportActivitiesAfter (gwOfList [actNoDate, actStale]) "2024-02-01" 1000 2 =
        some { header := allFieldnames st.all_flattened st.max_receivers st.max_balance_changes
               rows := st.all_flattened.map
                 (fun a => flatten a st.max_receivers st.max_balance_changes) } ∧
      flatten ([actNoDate, actStale].get ⟨0, by norm_num⟩) st.max_receivers
          st.max_balance_changes ∈
        st.all_flattened.map (fun a => flatten a st.max_receivers st.max_balance_changes) :=
  falsy_date_record_never_stops [actNoDate, actStale] "2024-02-01" 1000 0 (by norm_num)
    (by decide) (fun j hj hj0 => absurd hj0 (Nat.not_lt_zero j))

end CantonScan
